/-
  Verification of the sqlt declarative schema-reconciliation engine for SQLite.

  The development shallowly embeds the statement-by-statement AutoMigrate
  pipeline (automigrate source file), its structural comparator and Verify
  (migration.go), the transaction wrapper (transactions.go), the
  SchemaDefinition ingest and comparator (transactions.go / schema differ
  file), the MigrateFunc foreign-key pragma skeleton (migration.go), and the
  semicolon-splitting batch executor ExecTx (migration.go).

  Stateful database code is modelled by explicit state passing: a database
  state carries the sqlite_master catalog (as an association list of
  name/statement entries), table row data, and the foreign_keys pragma flag.
  SQL statements held in sqlite_master are modelled by their parsed structure;
  the canonical text produced by the rqlite parser String() method is modelled
  by an explicit renderer (round-trip law of the parser adapter).  DDL
  execution against SQLite is modelled by applyOp, including the cascade
  behaviour of DROP TABLE (dependent indexes and triggers are dropped with
  the table) and of ALTER TABLE RENAME (dependent indexes and triggers follow
  the renamed table).
-/
import Mathlib

set_option maxRecDepth 4000

namespace Sqlt

/-! ### String helpers (kernel-friendly, defined over character lists) -/

/-- Lower-casing as used by strings.ToLower on ASCII identifiers. -/
def toLowerS (s : String) : String :=
  String.mk (s.toList.map Char.toLower)

/-- Go strings.HasPrefix. -/
def startsWithS (s pre : String) : Bool :=
  pre.toList.isPrefixOf s.toList

/-- Go strings.HasSuffix. -/
def endsWithS (s suf : String) : Bool :=
  suf.toList.reverse.isPrefixOf s.toList.reverse

/-- First-occurrence substring test over character lists (strings.Contains). -/
def containsSub (pat : List Char) : List Char → Bool
  | [] => pat.isEmpty
  | c :: cs => pat.isPrefixOf (c :: cs) || containsSub pat cs

/-- Go strings.TrimSpace restricted to ASCII whitespace. -/
def trimS (s : String) : String :=
  String.mk (((s.toList.dropWhile Char.isWhitespace).reverse.dropWhile
      Char.isWhitespace).reverse)

/-- quoteIdent from migration.go: wrap in double quotes, doubling inner quotes. -/
def quoteIdent (ident : String) : String :=
  String.mk ('"' :: (ident.toList.flatMap fun c =>
    if c = '"' then ['"', '"'] else [c]) ++ ['"'])

/-- The sqlite_master query filter NOT LIKE with the internal-name pattern:
    at least seven characters, the first six spelling the engine prefix
    case-insensitively (the seventh is the single-character wildcard). -/
def likeSqliteName (n : String) : Bool :=
  startsWithS (toLowerS n) "sqlite" && decide (7 ≤ n.toList.length)

/-- Association-list lookup keyed by strings (Go map read). -/
def lookupA {α : Type} : List (String × α) → String → Option α
  | [], _ => none
  | (k, v) :: rest, key => if k = key then some v else lookupA rest key

/-- Association-list write (Go map assignment: overwrite in place or append). -/
def insertOver {α : Type} : List (String × α) → String → α → List (String × α)
  | [], key, v => [(key, v)]
  | (k, w) :: rest, key, v =>
      if k = key then (k, v) :: rest else (k, w) :: insertOver rest key v

/-- Membership in a list of names used for Go map-backed string sets. -/
def memName (l : List String) (n : String) : Bool :=
  l.contains n

/-- Set-style insert for Go map-backed string sets (map[string]bool write). -/
def insertName (l : List String) (n : String) : List String :=
  if memName l n then l else l ++ [n]

/-- Removal used to model the processedSchemaObjects revert to false. -/
def removeName (l : List String) (n : String) : List String :=
  l.filter (fun m => m ≠ n)

/-! ### Statement model

The rqlite/sql statement values that the engine manipulates.  Only the four
CREATE statement kinds survive ingest (DML statements are filtered before
the model is entered).  Inline column constraints carry the structure the
engine reads; constraint comparison happens on the canonical text produced
by the parser String() method, modelled by the render functions below. -/

/-- Inline column constraints (the kinds kept by getInlineConstraints). -/
inductive ColConstraint where
  | primaryKey
  | notNull
  | unique
  | default (expr : String)
  | check (expr : String)
  | foreignKey (table : String) (cols : List String) (onUpdate onDelete : String)
deriving DecidableEq, Repr

/-- Canonical text of an inline constraint (rqlite Constraint String()). -/
def ColConstraint.render : ColConstraint → String
  | .primaryKey => "PRIMARY KEY"
  | .notNull => "NOT NULL"
  | .unique => "UNIQUE"
  | .default e => "DEFAULT " ++ e
  | .check e => "CHECK (" ++ e ++ ")"
  | .foreignKey t cs u d =>
      "REFERENCES " ++ quoteIdent t ++ " (" ++
        String.intercalate ", " (cs.map quoteIdent) ++ ")" ++
        (if u = "" then "" else " ON UPDATE " ++ u) ++
        (if d = "" then "" else " ON DELETE " ++ d)

/-- Table-level constraints (rqlite CreateTableStatement Constraints). -/
inductive TableConstraint where
  | primaryKey (cols : List String)
  | unique (name : String) (cols : List String)
  | foreignKey (raw : String)
deriving DecidableEq, Repr

/-- Canonical text of a table-level constraint. -/
def TableConstraint.render : TableConstraint → String
  | .primaryKey cs =>
      "PRIMARY KEY (" ++ String.intercalate ", " (cs.map quoteIdent) ++ ")"
  | .unique n cs =>
      (if n = "" then "" else "CONSTRAINT " ++ quoteIdent n ++ " ") ++
        "UNIQUE (" ++ String.intercalate ", " (cs.map quoteIdent) ++ ")"
  | .foreignKey raw => raw

/-- A column definition in a CREATE TABLE statement. -/
structure ColDef where
  name : String
  type : String
  constraints : List ColConstraint
deriving DecidableEq, Repr

/-- Canonical text of a column definition. -/
def ColDef.render (c : ColDef) : String :=
  quoteIdent c.name ++ " " ++ c.type ++
    String.join (c.constraints.map fun k => " " ++ k.render)

/-- A parsed CREATE TABLE statement. -/
structure TableStmt where
  name : String
  columns : List ColDef
  constraints : List TableConstraint
deriving DecidableEq, Repr

/-- The four statement kinds the engine reconciles.  Index and trigger
    statements carry their base table and an opaque canonical body; view
    statements carry an opaque canonical body. -/
inductive Stmt where
  | table (t : TableStmt)
  | index (name tbl body : String)
  | view (name body : String)
  | trigger (name tbl body : String)
deriving DecidableEq, Repr

/-- Canonical SQL of a statement (rqlite Statement String()). -/
def stmtString : Stmt → String
  | .table t =>
      "CREATE TABLE " ++ quoteIdent t.name ++ " (" ++
        String.intercalate ", " (t.columns.map ColDef.render ++
          t.constraints.map TableConstraint.render) ++ ")"
  | .index n tbl body =>
      "CREATE INDEX " ++ quoteIdent n ++ " ON " ++ quoteIdent tbl ++ " " ++ body
  | .view n body => "CREATE VIEW " ++ quoteIdent n ++ " AS " ++ body
  | .trigger n tbl body =>
      "CREATE TRIGGER " ++ quoteIdent n ++ " ON " ++ quoteIdent tbl ++ " " ++ body

/-- getStatementName from migration.go (total on the four CREATE kinds). -/
def stmtName : Stmt → String
  | .table t => t.name
  | .index n _ _ => n
  | .view n _ => n
  | .trigger n _ _ => n

/-- Object kinds as reported by getObjectType. -/
inductive ObjType where
  | table
  | index
  | view
  | trigger
deriving DecidableEq, Repr

/-- getObjectType from migration.go. -/
def getObjectType : Stmt → ObjType
  | .table _ => .table
  | .index _ _ _ => .index
  | .view _ _ => .view
  | .trigger _ _ _ => .trigger

/-- Whether the statement is a CreateTableStatement. -/
def isTableStmt : Stmt → Bool
  | .table _ => true
  | _ => false

/-- getTableNameForDependent: the base table of an index or trigger; empty
    for views and tables. -/
def getTableNameForDependent : Stmt → String
  | .index _ tbl _ => tbl
  | .trigger _ tbl _ => tbl
  | _ => ""

/-! ### Structural comparison (migration.go) -/

/-- normalizeTypeName from migration.go. -/
def normalizeTypeName (typeName : String) : String :=
  let upper := String.mk (typeName.toList.map Char.toUpper)
  if upper = "INT" then "INTEGER" else upper

/-- The three comparison verdicts. -/
inductive MatchType where
  | exact
  | reorderNeeded
  | noMatch
deriving DecidableEq, Repr

/-- getInlineConstraints: the model constraint type holds exactly the kinds
    the source filter keeps, so the filter is the identity here. -/
def getInlineConstraints (cs : List ColConstraint) : List ColConstraint := cs

/-- getTableLevelConstraints copies every table-level constraint. -/
def getTableLevelConstraints (cs : List TableConstraint) : List TableConstraint :=
  cs

/-- compareConstraints from migration.go: count multisets of the canonical
    constraint texts and compare both ways (after a length check). -/
def compareConstraints (dbCons schemaCons : List String) : Bool :=
  decide (dbCons.length = schemaCons.length) &&
  dbCons.all (fun s => dbCons.count s = schemaCons.count s) &&
  schemaCons.all (fun s => schemaCons.count s = dbCons.count s)

/-- Column map construction: Go builds map[name]column, later columns
    overwriting earlier ones; iteration order is fixed to insertion order. -/
def buildColMap (cols : List ColDef) : List (String × ColDef) :=
  cols.foldl (fun m c => insertOver m c.name c) []

/-- Removal of a key from the column map (Go delete). -/
def removeKey (m : List (String × ColDef)) (k : String) :
    List (String × ColDef) :=
  m.filter (fun p => p.1 ≠ k)

/-- The per-column comparison pass of compareTableStatements: walk the db
    column map, pairing columns by name, collecting difference descriptions
    and deleting matched names from the schema column map. -/
def colDiffPass :
    List (String × ColDef) → List (String × ColDef) →
      List String × List (String × ColDef)
  | [], schemaCols => ([], schemaCols)
  | (name, dbCol) :: rest, schemaCols =>
      match lookupA schemaCols name with
      | none =>
          let (ds, sc) := colDiffPass rest schemaCols
          (("extra db column " ++ name) :: ds, sc)
      | some schemaCol =>
          let typeDiff :=
            if normalizeTypeName dbCol.type ≠ normalizeTypeName schemaCol.type
            then ["column " ++ name ++ " type mismatch"] else []
          let consDiff :=
            if compareConstraints
                ((getInlineConstraints dbCol.constraints).map ColConstraint.render)
                ((getInlineConstraints schemaCol.constraints).map ColConstraint.render)
            then [] else ["column " ++ name ++ " constraint mismatch"]
          let (ds, sc) := colDiffPass rest (removeKey schemaCols name)
          (typeDiff ++ consDiff ++ ds, sc)

/-- Positional column-name agreement used by the reorder check. -/
def colOrderMatches : List ColDef → List ColDef → Bool
  | [], [] => true
  | d :: ds, s :: ss => decide (d.name = s.name) && colOrderMatches ds ss
  | _, _ => false

/-- compareTableStatements from migration.go. -/
def compareTableStatements (dbStmt schemaStmt : TableStmt) :
    MatchType × String :=
  let dbCols := buildColMap dbStmt.columns
  let schemaCols := buildColMap schemaStmt.columns
  let (diffs0, leftover) := colDiffPass dbCols schemaCols
  let diffs1 := diffs0 ++ leftover.map (fun p => "missing schema column " ++ p.1)
  let diffs :=
    if compareConstraints
        ((getTableLevelConstraints dbStmt.constraints).map TableConstraint.render)
        ((getTableLevelConstraints schemaStmt.constraints).map TableConstraint.render)
    then diffs1 else diffs1 ++ ["table-level constraints mismatch"]
  if diffs ≠ [] then (.noMatch, String.intercalate "; " diffs)
  else if dbStmt.columns.length = schemaStmt.columns.length &&
      !colOrderMatches dbStmt.columns schemaStmt.columns then
    (.reorderNeeded, "column order differs")
  else (.exact, "")

/-- compareStatements from migration.go (both arguments are present in the
    model, so the nil branches of the source are vacuous). -/
def compareStatements (dbStmt schemaStmt : Stmt) : MatchType × String :=
  if stmtString dbStmt = stmtString schemaStmt then (.exact, "")
  else
    match dbStmt, schemaStmt with
    | .table d, .table s => compareTableStatements d s
    | d, s =>
        if isTableStmt d ≠ isTableStmt s then
          (.noMatch, "object type mismatch")
        else
          (.noMatch, "definition mismatch")

/-! ### Database state and DDL execution model

tx.Exec calls are modelled at the operation level.  The state carries the
sqlite_master catalog, the row data of the tables, and the foreign_keys
pragma flag.  DROP TABLE cascades to the dropped table's indexes and
triggers; ALTER TABLE RENAME renames the table, rewrites its stored
statement and retargets its dependent indexes and triggers, exactly as the
SQLite engine does. -/

/-- A row of the sqlite_master catalog: display-case name and the statement
    parsed from the stored SQL (parser round-trip). -/
structure DBEntry where
  name : String
  stmt : Stmt
deriving DecidableEq, Repr

/-- A table row maps column names to values. -/
abbrev Row : Type := List (String × String)

/-- The live database: catalog, per-table row data, FK pragma. -/
structure DBState where
  master : List DBEntry
  data : List (String × List Row)
  fkEnabled : Bool
deriving DecidableEq, Repr

/-- Case-insensitive identifier equality (SQLite name resolution). -/
def nameEqCI (a b : String) : Bool :=
  toLowerS a = toLowerS b

/-- Reserved-name test: SQLite refuses to create objects whose name begins
    with the internal prefix. -/
def isReservedName (n : String) : Bool :=
  startsWithS (toLowerS n) "sqlite_"

/-- The DDL/DML operations AutoMigrate and MigrateFunc issue through
    tx.Exec or db.Exec. -/
inductive Op where
  | exec (s : Stmt)
  | dropObj (t : ObjType) (name : String)
  | renameTable (oldName newName : String)
  | insertSelect (dst : String) (cols : List String) (src : String)
  | pragmaFkOff
  | pragmaFkOn
deriving DecidableEq, Repr

/-- Errors the modelled driver can report. -/
inductive ExecErr where
  | noSuch (t : ObjType) (name : String)
  | alreadyExists (name : String)
  | reservedName (name : String)
  | dataMissing (name : String)
deriving DecidableEq, Repr

/-- Whether a catalog entry is an index or trigger whose base table is
    (case-insensitively) the given table name. -/
def dependsOn (tbl : String) (e : DBEntry) : Bool :=
  match e.stmt with
  | .index _ t _ => nameEqCI t tbl
  | .trigger _ t _ => nameEqCI t tbl
  | _ => false

/-- Retarget dependent indexes and triggers after ALTER TABLE RENAME. -/
def retargetDep (oldName newName : String) (e : DBEntry) : DBEntry :=
  match e.stmt with
  | .index n t b => if nameEqCI t oldName then ⟨e.name, .index n newName b⟩ else e
  | .trigger n t b =>
      if nameEqCI t oldName then ⟨e.name, .trigger n newName b⟩ else e
  | _ => e

/-- Execute one operation against the database (the SQLite collaborator
    contract). -/
def applyOp (st : DBState) (op : Op) : Except ExecErr DBState :=
  match op with
  | .exec s =>
      let n := stmtName s
      if isReservedName n then .error (.reservedName n)
      else if st.master.any (fun e => nameEqCI e.name n) then
        .error (.alreadyExists n)
      else
        .ok { st with
          master := st.master ++ [⟨n, s⟩],
          data := if isTableStmt s then st.data ++ [(n, [])] else st.data }
  | .dropObj t n =>
      if st.master.any (fun e => nameEqCI e.name n && getObjectType e.stmt = t)
      then
        .ok { st with
          master := st.master.filter (fun e =>
            !(nameEqCI e.name n && getObjectType e.stmt = t) &&
            !(t = ObjType.table && dependsOn n e)),
          data := if t = ObjType.table then
              st.data.filter (fun p => !nameEqCI p.1 n)
            else st.data }
      else .error (.noSuch t n)
  | .renameTable oldName newName =>
      if st.master.any (fun e =>
          nameEqCI e.name oldName && isTableStmt e.stmt) then
        if st.master.any (fun e => nameEqCI e.name newName) then
          .error (.alreadyExists newName)
        else
          .ok { st with
            master := st.master.map (fun e =>
              if nameEqCI e.name oldName && isTableStmt e.stmt then
                match e.stmt with
                | .table t => ⟨newName, .table { t with name := newName }⟩
                | s => ⟨newName, s⟩
              else retargetDep oldName newName e),
            data := st.data.map (fun p =>
              if nameEqCI p.1 oldName then (newName, p.2) else p) }
      else .error (.noSuch .table oldName)
  | .insertSelect dst cols src =>
      match st.data.find? (fun p => nameEqCI p.1 src) with
      | none => .error (.dataMissing src)
      | some (_, srcRows) =>
          if st.data.any (fun p => nameEqCI p.1 dst) then
            .ok { st with
              data := st.data.map (fun p =>
                if nameEqCI p.1 dst then
                  (p.1, p.2 ++ srcRows.map (fun r =>
                    cols.map fun c => (c, (lookupA r c).getD "NULL")))
                else p) }
          else .error (.dataMissing dst)
  | .pragmaFkOff => .ok { st with fkEnabled := false }
  | .pragmaFkOn => .ok { st with fkEnabled := true }

/-! ### The AutoMigrate pipeline (automigrate source file) -/

/-- The errors AutoMigrate returns through the transaction callback. -/
inductive MErr where
  | duplicateObject (name : String)
  | schemaConflict (objectName objectType details : String)
  | deletionNotAllowed (tables : List String)
  | execFail (op : Op) (e : ExecErr)
  | internalErr (msg : String)
deriving DecidableEq, Repr

/-- Recognizer for the SchemaConflictError family. -/
def MErr.isConflict : MErr → Bool
  | .schemaConflict _ _ _ => true
  | _ => false

/-- Recognizer for ErrTableDeletionNotAllowed. -/
def MErr.isDeletionNotAllowed : MErr → Bool
  | .deletionNotAllowed _ => true
  | _ => false

/-- The mutable bookkeeping of one AutoMigrate transaction body, together
    with the trace of operations issued so far. -/
structure LoopCtx where
  st : DBState
  processed : List String
  rebuilt : List String
  disallowed : List String
  trace : List Op
deriving DecidableEq, Repr

/-- The combined skip test applied to catalog rows before parsing: the SQL
    query filter NOT LIKE internal-pattern plus the Go HasPrefix check. -/
def skipInternal (n : String) : Bool :=
  likeSqliteName n || startsWithS n "sqlite_"

/-- dbObjects construction: lowercased name keys, skipping internal rows. -/
def buildDbObjects (master : List DBEntry) : List (String × Stmt) :=
  master.foldl (fun m e =>
    if skipInternal e.name then m else insertOver m (toLowerS e.name) e.stmt) []

/-- Lowercased names of a schema statement list (for the duplicate check). -/
def schemaLowerNames (schema : List Stmt) : List String :=
  schema.map (fun s => toLowerS (stmtName s))

/-- First duplicated lowercased name in the schema stream, if any. -/
def firstDupName : List Stmt → Option String
  | [] => none
  | s :: rest =>
      if (schemaLowerNames rest).contains (toLowerS (stmtName s)) then
        some (stmtName s)
      else firstDupName rest

/-- Issue one operation, recording it in the trace; failures abort. -/
def execOp (c : LoopCtx) (op : Op) : Except MErr LoopCtx :=
  match applyOp c.st op with
  | .ok st' => .ok { c with st := st', trace := c.trace ++ [op] }
  | .error e => .error (.execFail op e)

/-- Issue a drop, recording it in the trace and tolerating a
    no-such-object report of the dropped kind (the source inspects the
    error text for this). -/
def execDropTolerant (c : LoopCtx) (t : ObjType) (n : String) :
    Except MErr LoopCtx :=
  match applyOp c.st (.dropObj t n) with
  | .ok st' => .ok { c with st := st', trace := c.trace ++ [.dropObj t n] }
  | .error (.noSuch _ _) => .ok { c with trace := c.trace ++ [.dropObj t n] }
  | .error e => .error (.execFail (.dropObj t n) e)

/-- The reorder-rebuild arm of the main loop: rename aside, create the new
    shape, copy data by the desired column list, drop the temporary. -/
def doReorder (c : LoopCtx) (t : TableStmt) : Except MErr LoopCtx :=
  let tempName := t.name ++ "_temp_reorder_sqlt"
  match execOp c (.renameTable t.name tempName) with
  | .error e => .error e
  | .ok c1 =>
      match execOp c1 (.exec (.table t)) with
      | .error e => .error e
      | .ok c2 =>
          match execOp c2
              (.insertSelect t.name (t.columns.map fun cd => cd.name) tempName) with
          | .error e => .error e
          | .ok c3 =>
              match execOp c3 (.dropObj .table tempName) with
              | .error e => .error e
              | .ok c4 =>
                  .ok { c4 with rebuilt := insertName c4.rebuilt (toLowerS t.name) }

/-- One iteration of the main schema loop of AutoMigrate. -/
def processStmt (allowTableDeletes : Bool) (dbObjects : List (String × Stmt))
    (c : LoopCtx) (s : Stmt) : Except MErr LoopCtx :=
  let nOrig := stmtName s
  let nLower := toLowerS nOrig
  let c := { c with processed := insertName c.processed nLower }
  let sIsTable := isTableStmt s
  let forceRecreate :=
    !sIsTable &&
      (let dep := getTableNameForDependent s
       dep ≠ "" && memName c.rebuilt (toLowerS dep))
  match lookupA dbObjects nLower with
  | none =>
      (match execOp c (.exec s) with
       | .error e => .error e
       | .ok c1 =>
           if sIsTable then
             .ok { c1 with rebuilt := insertName c1.rebuilt nLower }
           else .ok c1)
  | some dStmt =>
      let (matchType, diffDescription) := compareStatements dStmt s
      if forceRecreate then
        let dName := stmtName dStmt
        let dType := getObjectType dStmt
        if dType = ObjType.table && !allowTableDeletes then
          .ok { c with
            disallowed := c.disallowed ++ [dName],
            processed := removeName c.processed nLower }
        else
          match execDropTolerant c dType dName with
          | .error e => .error e
          | .ok c1 => execOp c1 (.exec s)
      else
        match matchType with
        | .exact => .ok c
        | .reorderNeeded =>
            match s with
            | .table t => doReorder c t
            | _ => .error (.internalErr ("reorder verdict for non-table " ++ nOrig))
        | .noMatch =>
            let dIsTable := isTableStmt dStmt
            if sIsTable && dIsTable then
              .error (.schemaConflict nOrig "TABLE" diffDescription)
            else
              let dName := stmtName dStmt
              if dIsTable && !allowTableDeletes then
                .ok { c with
                  disallowed := c.disallowed ++ [dName],
                  processed := removeName c.processed nLower }
              else
                match execOp c (.dropObj (getObjectType dStmt) dName) with
                | .error e => .error e
                | .ok c1 =>
                    match execOp c1 (.exec s) with
                    | .error e => .error e
                    | .ok c2 =>
                        if sIsTable then
                          .ok { c2 with rebuilt := insertName c2.rebuilt nLower }
                        else if dIsTable then
                          .ok { c2 with rebuilt := insertName c2.rebuilt nLower }
                        else .ok c2

/-- The main schema loop. -/
def runStmts (allowTableDeletes : Bool) (dbObjects : List (String × Stmt)) :
    LoopCtx → List Stmt → Except MErr LoopCtx
  | c, [] => .ok c
  | c, s :: rest =>
      match processStmt allowTableDeletes dbObjects c s with
      | .error e => .error e
      | .ok c' => runStmts allowTableDeletes dbObjects c' rest

/-- The deletion loop: drop every database object whose lowercased name was
    not processed, deferring disallowed table drops to the policy error. -/
def deletionLoop (allowTableDeletes : Bool) :
    List (String × Stmt) → LoopCtx → Except MErr LoopCtx
  | [], c => .ok c
  | (kLower, dStmt) :: rest, c =>
      if memName c.processed kLower then deletionLoop allowTableDeletes rest c
      else
        let nOrig := stmtName dStmt
        if isTableStmt dStmt && !allowTableDeletes then
          deletionLoop allowTableDeletes rest
            { c with disallowed := c.disallowed ++ [nOrig] }
        else
          match execDropTolerant c (getObjectType dStmt) nOrig with
          | .error e => .error e
          | .ok c' => deletionLoop allowTableDeletes rest c'

/-- The transaction body of AutoMigrate: ingest, duplicate check, main
    loop, deletion loop, policy gate. -/
def autoMigrateBody (db : DBState) (schema : List Stmt)
    (allowTableDeletes : Bool) : Except MErr LoopCtx :=
  let dbObjects := buildDbObjects db.master
  match firstDupName schema with
  | some n => .error (.duplicateObject n)
  | none =>
      match runStmts allowTableDeletes dbObjects ⟨db, [], [], [], []⟩ schema with
      | .error e => .error e
      | .ok c =>
          match deletionLoop allowTableDeletes dbObjects c with
          | .error e => .error e
          | .ok c =>
              if c.disallowed ≠ [] then .error (.deletionNotAllowed c.disallowed)
              else .ok c

/-- The transaction combinator of transactions.go: run the callback; commit
    its final state on success, roll back to the pre-call state on error. -/
def txc (db : DBState) (body : Except MErr LoopCtx) : DBState × Option MErr :=
  match body with
  | .ok c => (c.st, none)
  | .error e => (db, some e)

/-- AutoMigrate: the transaction body run under the transaction wrapper.
    Returns the resulting database state and the error, if any. -/
def autoMigrate (db : DBState) (schema : List Stmt)
    (allowTableDeletes : Bool) : DBState × Option MErr :=
  txc db (autoMigrateBody db schema allowTableDeletes)

/-! ### Verify (migration.go) -/

/-- The db-object map of Verify: keyed by the exact catalog name (no
    lowercasing), internal rows filtered by the catalog query. -/
def verifyDbMap (st : DBState) : List (String × Stmt) :=
  (st.master.filter (fun e => !likeSqliteName e.name)).foldl
    (fun m e => insertOver m e.name e.stmt) []

/-- The schema pass of Verify: look each target object up by exact name and
    require an exact comparison verdict, accumulating verified names. -/
def verifyLoop (dbMap : List (String × Stmt)) :
    List String → List Stmt → Except String (List String)
  | verified, [] => .ok verified
  | verified, s :: rest =>
      let n := stmtName s
      match lookupA dbMap n with
      | none => .error ("object " ++ n ++ " from schema not found in database")
      | some dStmt =>
          if (compareStatements dStmt s).1 = MatchType.exact then
            verifyLoop dbMap (verified ++ [n]) rest
          else .error ("schema mismatch for object " ++ n)

/-- The extra-object pass of Verify. -/
def verifyExtras (dbMap : List (String × Stmt)) (verified : List String) :
    Option String :=
  match dbMap.find? (fun p =>
      !verified.contains p.1 && !startsWithS p.1 "sqlite_") with
  | some p => some ("object " ++ p.1 ++ " found in database but not in schema")
  | none => none

/-- Verify from migration.go: none on success, an error message otherwise. -/
def verify (st : DBState) (schema : List Stmt) : Option String :=
  let dbMap := verifyDbMap st
  match verifyLoop dbMap [] schema with
  | .error e => some e
  | .ok verified => verifyExtras dbMap verified

/-! ### The MigrateFunc foreign-key pragma skeleton (migration.go)

MigrateFunc wraps a versioned migration body in PRAGMA foreign_keys=OFF /
ON.  The body itself (user function, restore, integrity check, version
bump) is abstracted to its outcome; the driver pragma calls may fail, which
the skeleton models with explicit success flags. -/

/-- Errors of the MigrateFunc wrapper. -/
inductive MfErr where
  | fkOffFailed
  | bodyFailed (msg : String)
  | restoreFkFailedAfterError (msg : String)
  | restoreFkFailedAfterSuccess
deriving DecidableEq, Repr

/-- Recognizer for the loud FK-restore failures. -/
def MfErr.isRestoreFailure : MfErr → Bool
  | .restoreFkFailedAfterError _ => true
  | .restoreFkFailedAfterSuccess => true
  | _ => false

/-- Outcome of one MigrateFunc invocation: the final FK pragma state, the
    pragma operations attempted, and the returned error. -/
structure MfRun where
  fk : Bool
  trace : List Op
  err : Option MfErr
deriving DecidableEq, Repr

/-- The MigrateFunc wrapper logic: turn FK off, run the transaction body,
    and turn FK back on on both the error and the success path. -/
def migrateFuncRun (fk0 : Bool) (offOk : Bool) (body : Option String)
    (onOkAfterErr onOkAfterOk : Bool) : MfRun :=
  if !offOk then ⟨fk0, [.pragmaFkOff], some .fkOffFailed⟩
  else
    match body with
    | some msg =>
        if onOkAfterErr then
          ⟨true, [.pragmaFkOff, .pragmaFkOn], some (.bodyFailed msg)⟩
        else
          ⟨false, [.pragmaFkOff, .pragmaFkOn],
            some (.restoreFkFailedAfterError msg)⟩
    | none =>
        if onOkAfterOk then ⟨true, [.pragmaFkOff, .pragmaFkOn], none⟩
        else ⟨false, [.pragmaFkOff, .pragmaFkOn],
          some .restoreFkFailedAfterSuccess⟩

/-! ### The SchemaDefinition ingest and comparator (transactions.go and the
schema differ file) -/

/-- ForeignKeyDefinition from schema_types.go. -/
structure ForeignKeyDefinition where
  targetTable : String
  targetColumns : List String
  onUpdate : String
  onDelete : String
deriving DecidableEq, Repr

/-- ColumnDefinition from schema_types.go. -/
structure ColumnDefinition where
  name : String
  type : String
  isNullable : Bool
  defaultValue : Option String
  isPrimaryKey : Bool
  isUnique : Bool
  foreignKey : Option ForeignKeyDefinition
deriving DecidableEq, Repr

/-- TableDefinition from schema_types.go.  The unique-constraint map is
    an association list in insertion order. -/
structure TableDefinition where
  name : String
  sql : String
  columns : List ColumnDefinition
  primaryKey : List String
  uniqueConstraints : List (String × List String)
deriving DecidableEq, Repr

/-- One step of the inline-constraint switch of parseCreateTableStatement.
    CheckConstraint has no case in the source switch and is ignored. -/
def applyColConstraint (col : ColumnDefinition) (k : ColConstraint) :
    ColumnDefinition :=
  match k with
  | .notNull => { col with isNullable := false }
  | .primaryKey => { col with isPrimaryKey := true }
  | .unique => { col with isUnique := true }
  | .default e => { col with defaultValue := some e }
  | .check _ => col
  | .foreignKey t cs u d => { col with foreignKey := some ⟨t, cs, u, d⟩ }

/-- Ingest of one column: nullable by default, then the constraint switch. -/
def ingestColumn (cd : ColDef) : ColumnDefinition :=
  cd.constraints.foldl applyColConstraint
    ⟨cd.name, cd.type, true, none, false, false, none⟩

/-- Mark a named column as primary key (table-level PK constraint). -/
def markPrimaryKey (cols : List ColumnDefinition) (n : String) :
    List ColumnDefinition :=
  cols.map fun c => if c.name = n then { c with isPrimaryKey := true } else c

/-- Mark a named column as unique (table-level UNIQUE constraint). -/
def markUnique (cols : List ColumnDefinition) (n : String) :
    List ColumnDefinition :=
  cols.map fun c => if c.name = n then { c with isUnique := true } else c

/-- One step of the table-level-constraint switch of
    parseCreateTableStatement.  Table-level foreign keys are skipped. -/
def applyTableConstraint
    (acc : List ColumnDefinition × List String × List (String × List String))
    (tc : TableConstraint) :
    List ColumnDefinition × List String × List (String × List String) :=
  match tc with
  | .primaryKey pkCols =>
      pkCols.foldl (fun a cn => (markPrimaryKey a.1 cn, a.2.1 ++ [cn], a.2.2)) acc
  | .unique n uCols =>
      let cols' := uCols.foldl markUnique acc.1
      let cname :=
        if n = "" then "unique_" ++ String.intercalate "_" uCols else n
      (cols', acc.2.1, insertOver acc.2.2 cname uCols)
  | .foreignKey _ => acc

/-- Primary-key de-duplication keeping first occurrences. -/
def dedupPk (l : List String) : List String :=
  l.foldl (fun acc n => if acc.contains n then acc else acc ++ [n]) []

/-- parseCreateTableStatement from transactions.go: build the
    TableDefinition of one parsed CREATE TABLE statement. -/
def parseCreateTableStatement (t : TableStmt) : TableDefinition :=
  let cols0 := t.columns.map ingestColumn
  let pk0 := t.columns.flatMap fun cd =>
    cd.constraints.filterMap fun k =>
      match k with
      | .primaryKey => some cd.name
      | _ => none
  let res := t.constraints.foldl applyTableConstraint (cols0, pk0, [])
  ⟨t.name, stmtString (.table t), res.1, dedupPk res.2.1, res.2.2⟩

/-- compareStringSlicesEquivalent from the schema differ file: a length
    check, then element-wise comparison in order (the sorting described in
    the comments is not performed). -/
def compareStringSlicesEquivalent (a b : List String) : Bool :=
  if a.length ≠ b.length then false
  else if a.length = 0 then true
  else pointwiseEqS a b
where
  pointwiseEqS : List String → List String → Bool
    | [], [] => true
    | x :: xs, y :: ys => decide (x = y) && pointwiseEqS xs ys
    | _, _ => false

/-- SchemaConflictError from the conflict reporter. -/
structure SchemaConflictError where
  elementName : String
  conflictType : String
  propertyName : String
  expectedValue : String
  actualValue : String
deriving DecidableEq, Repr

/-- The default-value mismatch test of CompareTableDefinitions. -/
def defaultValuesDiffer (d c : Option String) : Bool :=
  match d, c with
  | none, some _ => true
  | some _, none => true
  | some x, some y => decide (x ≠ y)
  | none, none => false

/-- The positional per-column pass of CompareTableDefinitions.  The
    IsUnique comparison of the source has an empty body and is therefore
    not reflected in the verdict. -/
def compareColumnPairs (tname : String) :
    List (ColumnDefinition × ColumnDefinition) → Option SchemaConflictError
  | [] => none
  | (d, c) :: rest =>
      if d.name ≠ c.name then
        some ⟨tname, "ColumnNameMismatch", "Column Name", d.name, c.name⟩
      else if d.type ≠ c.type then
        some ⟨tname, "ColumnTypeMismatch", "Column " ++ d.name ++ " Type",
          d.type, c.type⟩
      else if d.isNullable ≠ c.isNullable then
        some ⟨tname, "ColumnNullabilityMismatch",
          "Column " ++ d.name ++ " IsNullable", toString d.isNullable,
          toString c.isNullable⟩
      else if defaultValuesDiffer d.defaultValue c.defaultValue then
        some ⟨tname, "ColumnDefaultValueMismatch",
          "Column " ++ d.name ++ " DefaultValue",
          (d.defaultValue).getD "NULL", (c.defaultValue).getD "NULL"⟩
      else if d.isPrimaryKey ≠ c.isPrimaryKey then
        some ⟨tname, "ColumnPrimaryKeyMismatch",
          "Column " ++ d.name ++ " IsPrimaryKey", toString d.isPrimaryKey,
          toString c.isPrimaryKey⟩
      else
        match d.foreignKey, c.foreignKey with
        | none, some _ =>
            some ⟨tname, "ForeignKeyPresenceMismatch",
              "Column " ++ d.name ++ " ForeignKey", "false", "true"⟩
        | some _, none =>
            some ⟨tname, "ForeignKeyPresenceMismatch",
              "Column " ++ d.name ++ " ForeignKey", "true", "false"⟩
        | none, none => compareColumnPairs tname rest
        | some df, some cf =>
            if df.targetTable ≠ cf.targetTable then
              some ⟨tname, "ForeignKeyMismatch",
                "Column " ++ d.name ++ " ForeignKey TargetTable",
                df.targetTable, cf.targetTable⟩
            else if !compareStringSlicesEquivalent df.targetColumns
                cf.targetColumns then
              some ⟨tname, "ForeignKeyMismatch",
                "Column " ++ d.name ++ " ForeignKey TargetColumns", "", ""⟩
            else if df.onUpdate ≠ cf.onUpdate then
              some ⟨tname, "ForeignKeyMismatch",
                "Column " ++ d.name ++ " ForeignKey OnUpdate", df.onUpdate,
                cf.onUpdate⟩
            else if df.onDelete ≠ cf.onDelete then
              some ⟨tname, "ForeignKeyMismatch",
                "Column " ++ d.name ++ " ForeignKey OnDelete", df.onDelete,
                cf.onDelete⟩
            else compareColumnPairs tname rest

/-- The by-name unique-constraint pass of CompareTableDefinitions. -/
def firstUniqueConflict (tname : String) :
    List (String × List String) → List (String × List String) →
      Option SchemaConflictError
  | [], _ => none
  | (n, dCols) :: rest, cur =>
      match lookupA cur n with
      | none =>
          some ⟨tname, "MissingUniqueConstraint", "UniqueConstraint " ++ n,
            "Exists", "Not Found"⟩
      | some cCols =>
          if !compareStringSlicesEquivalent dCols cCols then
            some ⟨tname, "UniqueConstraintMismatch",
              "UniqueConstraint " ++ n ++ " Columns", "", ""⟩
          else firstUniqueConflict tname rest cur

/-- CompareTableDefinitions from the schema differ file. -/
def CompareTableDefinitions (desired current : TableDefinition) :
    Option SchemaConflictError :=
  if desired.columns.length ≠ current.columns.length then
    some ⟨desired.name, "ColumnCountMismatch", "Table Columns",
      toString desired.columns.length, toString current.columns.length⟩
  else
    match compareColumnPairs desired.name
        (desired.columns.zip current.columns) with
    | some e => some e
    | none =>
        if !compareStringSlicesEquivalent desired.primaryKey
            current.primaryKey then
          some ⟨desired.name, "PrimaryKeyMismatch",
            "Table PrimaryKey Columns", "", ""⟩
        else if desired.uniqueConstraints.length ≠
            current.uniqueConstraints.length then
          some ⟨desired.name, "UniqueConstraintCountMismatch",
            "Table UniqueConstraints Count",
            toString desired.uniqueConstraints.length,
            toString current.uniqueConstraints.length⟩
        else
          match firstUniqueConflict desired.name desired.uniqueConstraints
              current.uniqueConstraints with
          | some e => some e
          | none =>
              match current.uniqueConstraints.find? (fun p =>
                  (lookupA desired.uniqueConstraints p.1).isNone) with
              | some p =>
                  some ⟨desired.name, "ExtraUniqueConstraint",
                    "UniqueConstraint " ++ p.1, "Not Found", "Exists"⟩
              | none => none

/-! ### The semicolon-splitting batch executor ExecTx (migration.go) -/

/-- Split l = a ++ pat ++ b at the first occurrence of pat, if any
    (strings.Index). -/
def breakSub (pat : List Char) : List Char → Option (List Char × List Char)
  | [] => none
  | c :: cs =>
      if pat.isPrefixOf (c :: cs) then some ([], (c :: cs).drop pat.length)
      else
        match breakSub pat cs with
        | some (a, b) => some (c :: a, b)
        | none => none

/-- The comment-stripping loop of ExecTx with an explicit fuel (each pass
    shortens the statement, so fuel equal to the statement length never runs
    out; see stripComments_fuel_stable below): remove "--"-to-end-of-line
    comments; a comment with no terminating newline buffers the whole
    statement (inr) instead of executing it (inl). -/
def stripCommentsFuel : Nat → List Char → (List Char) ⊕ (List Char)
  | 0, stmt => .inl stmt
  | fuel + 1, stmt =>
      match breakSub ['-', '-'] stmt with
      | none => .inl stmt
      | some (a, rest) =>
          match breakSub ['\n'] rest with
          | none => .inr stmt
          | some (_, tailPart) => stripCommentsFuel fuel (a ++ tailPart)

/-- The comment-stripping loop of ExecTx. -/
def stripComments (stmt : List Char) : (List Char) ⊕ (List Char) :=
  stripCommentsFuel stmt.length stmt

/-- bufio ReadString splitting: the list of chunks each ending with a
    semicolon, and the unterminated tail. -/
def chunksOf : List Char → List (List Char) × List Char
  | [] => ([], [])
  | c :: cs =>
      if c = ';' then ([';'] :: (chunksOf cs).1, (chunksOf cs).2)
      else
        match chunksOf cs with
        | ([], t) => ([], c :: t)
        | (ch :: rest, t) => ((c :: ch) :: rest, t)

/-- The input truncated at its final semicolon (dropping the tail). -/
def truncAtSemi (input : String) : String :=
  String.mk (chunksOf input.toList).1.flatten

/-- The chunk loop of ExecTx.  execOk says whether tx.Exec succeeds on a
    given statement text; the result is the error, if any, and the list of
    statement texts passed to tx.Exec.  Reaching the end of the chunk list
    models the io.EOF break: the unterminated tail never enters the loop. -/
def runChunks (execOk : String → Bool) :
    List (List Char) → List Char → List String → Option String × List String
  | [], _, acc => (none, acc)
  | ch :: rest, buf, acc =>
      if containsSub "CREATE TRIGGER".toList ch &&
          !("END;".toList.reverse.isPrefixOf ch.reverse) then
        runChunks execOk rest (buf ++ ch) acc
      else
        let stmt0 := buf ++ ch
        match stripComments stmt0 with
        | .inr toBuffer => runChunks execOk rest toBuffer acc
        | .inl stmtL =>
            if stmtL.isEmpty then runChunks execOk rest [] acc
            else
              let sTrim := trimS (String.mk stmtL)
              if execOk sTrim then runChunks execOk rest [] (acc ++ [sTrim])
              else (some sTrim, acc ++ [sTrim])

/-- ExecTx from migration.go: split on semicolons, buffer trigger bodies
    and unterminated comments, execute each statement. -/
def execTx (execOk : String → Bool) (input : String) :
    Option String × List String :=
  runChunks execOk (chunksOf input.toList).1 [] []

/-! ### Spec-side definitions used by refinement claims -/

/-- The claim wording of the Verify success condition with literal
    canonical-SQL equality for every object kind: every stream object is
    present in the database with canonically equal SQL, and every
    non-internal database object is named by the stream. -/
def specVerifySqlEquality (st : DBState) (schema : List Stmt) : Prop :=
  (∀ s ∈ schema, ∃ e ∈ st.master, likeSqliteName e.name = false ∧
    e.name = stmtName s ∧ stmtString e.stmt = stmtString s) ∧
  (∀ e ∈ st.master, skipInternal e.name = false →
    ∃ s ∈ schema, stmtName s = e.name)

/-- The primary-key column list of a parsed CREATE TABLE statement
    (inline markers in column order, then table-level constraints). -/
def tablePkOf (t : TableStmt) : List String :=
  dedupPk
    ((t.columns.flatMap fun cd =>
      cd.constraints.filterMap fun k =>
        match k with
        | .primaryKey => some cd.name
        | _ => none) ++
    (t.constraints.flatMap fun tc =>
      match tc with
      | .primaryKey cs => cs
      | _ => []))

/-- Presence of a NOT NULL constraint in a constraint list. -/
def hasNotNull (cs : List ColConstraint) : Bool :=
  cs.any fun k => decide (k = ColConstraint.notNull)

/-- The claim wording of column nullability: nullable unless a NOT NULL
    constraint is present or the column is the sole primary-key column of
    an integer-affinity row-id table. -/
def specColumnNullable (t : TableStmt) (cd : ColDef) : Bool :=
  !hasNotNull cd.constraints &&
  !(decide (tablePkOf t = [cd.name]) &&
    decide (normalizeTypeName cd.type = "INTEGER"))

/-! ### Derived observers used in the theorems -/

/-- Whether an operation is a foreign-key pragma. -/
def Op.isFkPragma : Op → Bool
  | .pragmaFkOff => true
  | .pragmaFkOn => true
  | _ => false

/-- The operation trace of a successful AutoMigrate transaction body
    (errors roll the transaction back, discarding the trace). -/
def autoMigrateTrace (db : DBState) (schema : List Stmt)
    (allowTableDeletes : Bool) : List Op :=
  match autoMigrateBody db schema allowTableDeletes with
  | .ok c => c.trace
  | .error _ => []

/-- The rebuilt-tables set of a successful AutoMigrate transaction body. -/
def autoMigrateRebuilt (db : DBState) (schema : List Stmt)
    (allowTableDeletes : Bool) : List String :=
  match autoMigrateBody db schema allowTableDeletes with
  | .ok c => c.rebuilt
  | .error _ => []

/-! ### Concrete instances for counterexamples and witnesses -/

/-- Database table named in upper case. -/
def usersUpperTable : TableStmt := ⟨"USERS", [⟨"id", "INTEGER", []⟩], []⟩

/-- Target table named in mixed case, structurally identical. -/
def usersMixedTable : TableStmt := ⟨"Users", [⟨"id", "INTEGER", []⟩], []⟩

/-- Database whose only table is named USERS. -/
def dbCase : DBState :=
  ⟨[⟨"USERS", .table usersUpperTable⟩], [("USERS", [])], true⟩

/-- Target stream declaring the same table as Users. -/
def schemaCase : List Stmt := [.table usersMixedTable]

/-- Current shape of the reorder-scenario table. -/
def tOld : TableStmt := ⟨"t", [⟨"a", "INTEGER", []⟩, ⟨"b", "TEXT", []⟩], []⟩

/-- Desired shape of the reorder-scenario table (columns swapped). -/
def tNew : TableStmt := ⟨"t", [⟨"b", "TEXT", []⟩, ⟨"a", "INTEGER", []⟩], []⟩

/-- The index on the reorder-scenario table. -/
def idxT : Stmt := .index "idx" "t" "(b)"

/-- Database holding the old table shape and its index. -/
def dbReorder : DBState :=
  ⟨[⟨"t", .table tOld⟩, ⟨"idx", idxT⟩],
   [("t", [[("a", "1"), ("b", "x")]])], true⟩

/-- Target stream listing the index before its reordered base table. -/
def schemaIdxFirst : List Stmt := [idxT, .table tNew]

/-- Target stream listing the reordered base table before the index. -/
def schemaTblFirst : List Stmt := [.table tNew, idxT]

/-- Current items table with a REAL column. -/
def itemsReal : TableStmt := ⟨"items", [⟨"price", "REAL", []⟩], []⟩

/-- Desired items table with a TEXT column (a type conflict). -/
def itemsText : TableStmt := ⟨"items", [⟨"price", "TEXT", []⟩], []⟩

/-- A table present in the database and absent from the target. -/
def goneTable : TableStmt := ⟨"gone", [⟨"x", "TEXT", []⟩], []⟩

/-- Database holding the conflicting table and the to-be-dropped table. -/
def dbConflict : DBState :=
  ⟨[⟨"items", .table itemsReal⟩, ⟨"gone", .table goneTable⟩],
   [("items", []), ("gone", [])], true⟩

/-- Target stream holding only the conflicting table. -/
def schemaConflict : List Stmt := [.table itemsText]

/-- An empty database with FK enforcement on. -/
def dbEmpty : DBState := ⟨[], [], true⟩

/-- A one-table target stream. -/
def schemaOne : List Stmt := [.table ⟨"t", [⟨"x", "TEXT", []⟩], []⟩]

/-- Database table declared with type INT. -/
def tInt : TableStmt := ⟨"t", [⟨"a", "INT", []⟩], []⟩

/-- Target table declared with type INTEGER. -/
def tInteger : TableStmt := ⟨"t", [⟨"a", "INTEGER", []⟩], []⟩

/-- Database for the Verify canonical-SQL counterexample. -/
def dbIntType : DBState := ⟨[⟨"t", .table tInt⟩], [("t", [])], true⟩

/-- Target stream for the Verify canonical-SQL counterexample. -/
def schemaIntegerType : List Stmt := [.table tInteger]

/-- CREATE TABLE with a named unique constraint on (a, b). -/
def tUniqueAB : TableStmt :=
  ⟨"u", [⟨"a", "TEXT", []⟩, ⟨"b", "TEXT", []⟩], [.unique "uq" ["a", "b"]]⟩

/-- The same table with the unique-constraint columns permuted. -/
def tUniqueBA : TableStmt :=
  ⟨"u", [⟨"a", "TEXT", []⟩, ⟨"b", "TEXT", []⟩], [.unique "uq" ["b", "a"]]⟩

/-- CREATE TABLE whose sole column is an INTEGER PRIMARY KEY. -/
def tSolePk : TableStmt := ⟨"t", [⟨"id", "INTEGER", [.primaryKey]⟩], []⟩

/-- Database holding only the to-be-dropped table. -/
def dbGoneOnly : DBState := ⟨[⟨"gone", .table goneTable⟩], [("gone", [])], true⟩

/-- The dbObjects map of the reorder witness scenario. -/
def dbObjectsReorder : List (String × Stmt) := [("t", .table tOld)]

/-- The starting loop context of the reorder witness scenario. -/
def ctxReorder : LoopCtx :=
  ⟨⟨[⟨"t", .table tOld⟩], [("t", [[("a", "1"), ("b", "x")]])], true⟩,
   [], [], [], []⟩

/-- The resulting loop context of the reorder witness scenario. -/
def reorderResultCtx : LoopCtx :=
  ⟨⟨[⟨"t", .table tNew⟩], [("t", [[("b", "x"), ("a", "1")]])], true⟩,
   ["t"], ["t"], [],
   [.renameTable "t" "t_temp_reorder_sqlt", .exec (.table tNew),
    .insertSelect "t" ["b", "a"] "t_temp_reorder_sqlt",
    .dropObj .table "t_temp_reorder_sqlt"]⟩

/-! ### Generic helper lemmas -/

/-- A successful association-list lookup is a membership. -/
theorem lookupA_mem {α : Type} {l : List (String × α)} {k : String} {v : α}
    (h : lookupA l k = some v) : (k, v) ∈ l := by
  induction l with
  | nil => simp [lookupA] at h
  | cons p rest ih =>
      obtain ⟨k', v'⟩ := p
      by_cases hk : k' = k
      · subst hk
        simp [lookupA] at h
        simp [h]
      · simp [lookupA, hk] at h
        exact List.mem_cons_of_mem _ (ih h)

/-! ### C1 -/

/-- C1: evaluation of the code at the failing input.  The database holds a
    table named USERS; the target declares the structurally identical table
    as Users.  AutoMigrate matches objects by lowercased name, deems the
    pair an exact structural match and returns success without touching the
    database, but Verify looks the target name up case-sensitively and
    fails.  This contradicts the claim that Verify succeeds immediately
    after a successful AutoMigrate. -/
theorem autoMigrate_verify_case_mismatch :
    (autoMigrate dbCase schemaCase true).2 = none ∧
    (autoMigrate dbCase schemaCase true).1 = dbCase ∧
    verify (autoMigrate dbCase schemaCase true).1 schemaCase =
      some "object Users from schema not found in database" :=
  ⟨rfl, rfl, rfl⟩

/-! ### C6 -/

/-- C6: evaluation of the code at the failing input.  The target stream
    lists the index idx before its base table t; t has the reorder-only
    verdict.  AutoMigrate first sees idx as an exact match (t is not yet in
    the rebuilt set, so no forced recreate), then rebuilds t: the rename
    carries idx to the temporary table and dropping the temporary table
    cascades idx away.  AutoMigrate still returns success, yet idx — an
    index of the target whose base table t was rebuilt — is absent from the
    final database, contradicting the dependent-recreate claim. -/
theorem reorder_drops_preceding_dependent :
    (autoMigrate dbReorder schemaIdxFirst true).2 = none ∧
    idxT ∈ schemaIdxFirst ∧
    getTableNameForDependent idxT = "t" ∧
    autoMigrateRebuilt dbReorder schemaIdxFirst true = ["t"] ∧
    (autoMigrate dbReorder schemaIdxFirst true).1.master.map
      (fun e => e.name) = ["t"] :=
  ⟨rfl, by decide, rfl, rfl, rfl⟩

/-! ### C2 -/

/-- C2: if AutoMigrate returns a schema-conflict error or the
    table-deletion-not-allowed error, the database — catalog and row
    data — is identical to its state before the call: every error is
    returned out of the transaction callback, and the transaction wrapper
    rolls back on error. -/
theorem autoMigrate_conflict_rolls_back (db : DBState) (schema : List Stmt)
    (allowTableDeletes : Bool) (e : MErr)
    (herr : (autoMigrate db schema allowTableDeletes).2 = some e)
    (hkind : e.isConflict = true ∨ e.isDeletionNotAllowed = true) :
    (autoMigrate db schema allowTableDeletes).1 = db := by
  unfold autoMigrate txc at herr ⊢
  cases h : autoMigrateBody db schema allowTableDeletes with
  | ok c => rw [h] at herr; simp at herr
  | error e' => rfl

/-- Witness for C2: the type-change scenario returns a conflict error and
    the database is unchanged. -/
theorem autoMigrate_conflict_rolls_back_witness :
    (autoMigrate dbConflict schemaConflict true).2 =
      some (MErr.schemaConflict "items" "TABLE" "column price type mismatch") ∧
    (MErr.schemaConflict "items" "TABLE"
      "column price type mismatch").isConflict = true ∧
    (autoMigrate dbConflict schemaConflict true).1 = dbConflict :=
  ⟨rfl, rfl,
    autoMigrate_conflict_rolls_back dbConflict schemaConflict true
      (MErr.schemaConflict "items" "TABLE" "column price type mismatch") rfl
      (Or.inl rfl)⟩

/-! ### C3 counterexample -/

/-- C3: counterexample.  A successful AutoMigrate run that issues a
    migration operation (the CREATE TABLE) contains no foreign-key pragma
    in its operation trace: AutoMigrate does not disable FK enforcement
    before running migration operations. -/
theorem autoMigrate_no_fk_pragma_ce :
    autoMigrateTrace dbEmpty schemaOne true =
      [Op.exec (Stmt.table ⟨"t", [⟨"x", "TEXT", []⟩], []⟩)] ∧
    (autoMigrateTrace dbEmpty schemaOne true).all
      (fun op => !op.isFkPragma) = true ∧
    (autoMigrate dbEmpty schemaOne true).2 = none :=
  ⟨rfl, rfl, rfl⟩

/-! ### C4 counterexample -/

/-- C4: counterexample to the stated iff.  allowTableDeletes is false and
    the table gone would be dropped (it is in the database and not in the
    target), yet AutoMigrate returns the schema-conflict error for items —
    not ErrTableDeletionNotAllowed — because the conflict return pre-empts
    the deferred policy error. -/
theorem deletion_policy_preempted_ce :
    (autoMigrate dbConflict schemaConflict false).2 =
      some (MErr.schemaConflict "items" "TABLE" "column price type mismatch") ∧
    (MErr.schemaConflict "items" "TABLE"
      "column price type mismatch").isDeletionNotAllowed = false ∧
    isTableStmt (Stmt.table goneTable) = true ∧
    dbConflict.master.contains ⟨"gone", Stmt.table goneTable⟩ = true ∧
    (schemaConflict.map stmtName).contains "gone" = false :=
  ⟨rfl, rfl, rfl, by decide, by decide⟩

/-! ### C7 counterexample -/

/-- C7: counterexample to the canonical-SQL reading.  The database declares
    the column type as INT, the target as INTEGER, so the canonical SQL of
    the two statements differs; Verify nevertheless returns success because
    table comparison is structural (types are normalized).  The stated iff
    with literal canonical-SQL equality is therefore false. -/
theorem verify_not_sql_equality_ce :
    verify dbIntType schemaIntegerType = none ∧
    ¬ specVerifySqlEquality dbIntType schemaIntegerType :=
  ⟨rfl, by unfold specVerifySqlEquality; decide⟩

/-! ### C8 counterexample -/

/-- C8: counterexample.  Two CREATE TABLE statements differing only in the
    column order inside the same-named unique constraint ingest to
    unsorted column lists, and the comparator reports
    UniqueConstraintMismatch: the comparison is not invariant under
    permutation of the constraint columns. -/
theorem unique_constraint_order_sensitive_ce :
    (parseCreateTableStatement tUniqueAB).uniqueConstraints =
      [("uq", ["a", "b"])] ∧
    (parseCreateTableStatement tUniqueBA).uniqueConstraints =
      [("uq", ["b", "a"])] ∧
    (CompareTableDefinitions (parseCreateTableStatement tUniqueAB)
        (parseCreateTableStatement tUniqueBA)).map
      (fun e => e.conflictType) = some "UniqueConstraintMismatch" :=
  ⟨rfl, rfl, rfl⟩

/-! ### C8 theorem -/

/-- Element-wise equality test of string lists coincides with equality. -/
theorem pointwiseEqS_iff (a b : List String) :
    compareStringSlicesEquivalent.pointwiseEqS a b = true ↔ a = b := by
  induction a generalizing b with
  | nil => cases b <;> simp [compareStringSlicesEquivalent.pointwiseEqS]
  | cons x xs ih =>
      cases b <;> simp [compareStringSlicesEquivalent.pointwiseEqS, ih]

/-- compareStringSlicesEquivalent decides plain list equality. -/
theorem csse_iff (a b : List String) :
    compareStringSlicesEquivalent a b = true ↔ a = b := by
  unfold compareStringSlicesEquivalent
  by_cases h : a.length = b.length
  · rw [if_neg (fun hh => hh h)]
    by_cases h0 : a.length = 0
    · have ha : a = [] := List.length_eq_zero.mp h0
      have hb : b = [] := List.length_eq_zero.mp (by rw [← h]; exact h0)
      subst ha; subst hb; simp
    · rw [if_neg h0]
      exact pointwiseEqS_iff a b
  · rw [if_pos h]
    constructor
    · intro hf; exact absurd hf (by simp)
    · intro hab; exact absurd (by rw [hab]) h

/-- Reflexivity of the slice comparison. -/
theorem csse_refl (a : List String) :
    compareStringSlicesEquivalent a a = true :=
  (csse_iff a a).mpr rfl

/-- The default-value test is irreflexive. -/
theorem defaultValuesDiffer_self (d : Option String) :
    defaultValuesDiffer d d = false := by
  cases d <;> simp [defaultValuesDiffer]

/-- A column list compared positionally against itself yields no conflict. -/
theorem compareColumnPairs_zip_self (tname : String)
    (cols : List ColumnDefinition) :
    compareColumnPairs tname (cols.zip cols) = none := by
  induction cols with
  | nil => rfl
  | cons c cs ih =>
      show compareColumnPairs tname ((c, c) :: cs.zip cs) = none
      cases hf : c.foreignKey with
      | none =>
          simp [compareColumnPairs, defaultValuesDiffer_self, hf, ih]
      | some f =>
          simp [compareColumnPairs, defaultValuesDiffer_self, hf, csse_refl, ih]

/-- C8 amended: the comparator treats unique-constraint column lists as
    ordered lists, not sets.  compareStringSlicesEquivalent is plain list
    equality, and two tables agreeing everywhere except for a (nontrivial)
    permutation of the columns of one same-named unique constraint produce
    a UniqueConstraintMismatch conflict. -/
theorem unique_constraint_order_characterization :
    (∀ a b : List String, compareStringSlicesEquivalent a b = true ↔ a = b) ∧
    (∀ (tname sql1 sql2 : String) (cols : List ColumnDefinition)
      (pk : List String) (n : String) (l1 l2 : List String),
      List.Perm l1 l2 → l1 ≠ l2 →
      (CompareTableDefinitions ⟨tname, sql1, cols, pk, [(n, l1)]⟩
        ⟨tname, sql2, cols, pk, [(n, l2)]⟩).map (fun e => e.conflictType) =
        some "UniqueConstraintMismatch") := by
  refine ⟨csse_iff, ?_⟩
  intro tname sql1 sql2 cols pk n l1 l2 _hperm hne
  have hcsse : compareStringSlicesEquivalent l1 l2 = false := by
    cases h : compareStringSlicesEquivalent l1 l2
    · rfl
    · exact absurd ((csse_iff l1 l2).mp h) hne
  unfold CompareTableDefinitions
  simp [compareColumnPairs_zip_self, csse_refl, firstUniqueConflict, lookupA,
    hcsse]

/-- Witness for C8: the amended theorem applied to the two-column
    permutation instance. -/
theorem unique_constraint_order_characterization_witness :
    (CompareTableDefinitions ⟨"u", "sqlA", [], [], [("uq", ["a", "b"])]⟩
      ⟨"u", "sqlB", [], [], [("uq", ["b", "a"])]⟩).map
      (fun e => e.conflictType) = some "UniqueConstraintMismatch" :=
  unique_constraint_order_characterization.2 "u" "sqlA" "sqlB" [] [] "uq"
    ["a", "b"] ["b", "a"] (by decide) (by decide)

/-! ### C9 counterexample -/

/-- C9: counterexample.  The sole column of tSolePk is an INTEGER PRIMARY
    KEY; the spec wording makes it not nullable, but the ingest leaves
    IsNullable true: only a NOT NULL constraint clears the flag. -/
theorem nullable_sole_pk_ce :
    tSolePk.columns = [⟨"id", "INTEGER", [.primaryKey]⟩] ∧
    (parseCreateTableStatement tSolePk).columns.map
      (fun c => c.isNullable) = [true] ∧
    specColumnNullable tSolePk ⟨"id", "INTEGER", [.primaryKey]⟩ = false :=
  ⟨rfl, rfl, rfl⟩

/-! ### C9 theorem -/

/-- The inline-constraint switch clears IsNullable exactly on NOT NULL. -/
theorem applyColConstraint_isNullable (col : ColumnDefinition)
    (k : ColConstraint) :
    (applyColConstraint col k).isNullable =
      (col.isNullable && !(decide (k = ColConstraint.notNull))) := by
  cases k <;> simp [applyColConstraint]

/-- Folding the inline-constraint switch: the flag survives exactly when
    no NOT NULL constraint occurs. -/
theorem foldl_applyColConstraint_isNullable (cs : List ColConstraint)
    (col : ColumnDefinition) :
    (cs.foldl applyColConstraint col).isNullable =
      (col.isNullable && !hasNotNull cs) := by
  induction cs generalizing col with
  | nil => simp [hasNotNull]
  | cons k ks ih =>
      rw [List.foldl_cons, ih, applyColConstraint_isNullable]
      simp [hasNotNull, List.any_cons, Bool.and_assoc]

/-- Table-level primary-key marking leaves IsNullable untouched. -/
theorem markPrimaryKey_isNullable (cols : List ColumnDefinition)
    (n : String) :
    (markPrimaryKey cols n).map (fun c => c.isNullable) =
      cols.map (fun c => c.isNullable) := by
  induction cols with
  | nil => rfl
  | cons c cs ih =>
      by_cases h : c.name = n <;> simp [markPrimaryKey, h] <;>
        simpa [markPrimaryKey] using ih

/-- Table-level unique marking leaves IsNullable untouched. -/
theorem markUnique_isNullable (cols : List ColumnDefinition) (n : String) :
    (markUnique cols n).map (fun c => c.isNullable) =
      cols.map (fun c => c.isNullable) := by
  induction cols with
  | nil => rfl
  | cons c cs ih =>
      by_cases h : c.name = n <;> simp [markUnique, h] <;>
        simpa [markUnique] using ih

/-- The primary-key fold of the table-level switch preserves IsNullable. -/
theorem pkFold_isNullable (names : List String)
    (acc : List ColumnDefinition × List String ×
      List (String × List String)) :
    ((names.foldl (fun a cn => (markPrimaryKey a.1 cn, a.2.1 ++ [cn], a.2.2))
      acc).1).map (fun c => c.isNullable) =
      acc.1.map (fun c => c.isNullable) := by
  induction names generalizing acc with
  | nil => rfl
  | cons n ns ih =>
      rw [List.foldl_cons, ih]
      exact markPrimaryKey_isNullable acc.1 n

/-- The unique fold of the table-level switch preserves IsNullable. -/
theorem uniqueFold_isNullable (names : List String)
    (cols : List ColumnDefinition) :
    (names.foldl markUnique cols).map (fun c => c.isNullable) =
      cols.map (fun c => c.isNullable) := by
  induction names generalizing cols with
  | nil => rfl
  | cons n ns ih =>
      rw [List.foldl_cons, ih]
      exact markUnique_isNullable cols n

/-- One table-level constraint step preserves IsNullable. -/
theorem applyTableConstraint_isNullable
    (acc : List ColumnDefinition × List String ×
      List (String × List String)) (tc : TableConstraint) :
    ((applyTableConstraint acc tc).1).map (fun c => c.isNullable) =
      acc.1.map (fun c => c.isNullable) := by
  cases tc with
  | primaryKey cs => exact pkFold_isNullable cs acc
  | unique n cs =>
      simpa [applyTableConstraint] using uniqueFold_isNullable cs acc.1
  | foreignKey raw => rfl

/-- The table-level constraint fold preserves IsNullable. -/
theorem tcFold_isNullable (tcs : List TableConstraint)
    (acc : List ColumnDefinition × List String ×
      List (String × List String)) :
    ((tcs.foldl applyTableConstraint acc).1).map (fun c => c.isNullable) =
      acc.1.map (fun c => c.isNullable) := by
  induction tcs generalizing acc with
  | nil => rfl
  | cons tc tcs ih =>
      rw [List.foldl_cons, ih]
      exact applyTableConstraint_isNullable acc tc

/-- C9 amended: after ingest, a column's nullable flag is true by default
    and is false exactly when a NOT NULL constraint is present on the
    column (the sole-primary-key rule of the spec is not implemented). -/
theorem nullable_not_null_only (t : TableStmt) :
    (parseCreateTableStatement t).columns.map (fun c => c.isNullable) =
      t.columns.map (fun cd => !hasNotNull cd.constraints) := by
  unfold parseCreateTableStatement
  dsimp only
  rw [tcFold_isNullable]
  rw [List.map_map]
  refine List.map_congr_left ?_
  intro cd _
  show (ingestColumn cd).isNullable = !hasNotNull cd.constraints
  unfold ingestColumn
  rw [foldl_applyColConstraint_isNullable]
  simp

/-! ### Execution-model lemmas -/

/-- Non-pragma operations leave the FK pragma state unchanged. -/
theorem applyOp_fk {st : DBState} {op : Op} {st' : DBState}
    (hop : op.isFkPragma = false) (h : applyOp st op = .ok st') :
    st'.fkEnabled = st.fkEnabled := by
  cases op with
  | pragmaFkOff => simp [Op.isFkPragma] at hop
  | pragmaFkOn => simp [Op.isFkPragma] at hop
  | exec s =>
      simp only [applyOp] at h
      split at h
      · exact absurd h (by simp)
      · split at h
        · exact absurd h (by simp)
        · simp only [Except.ok.injEq] at h; subst h; rfl
  | dropObj t n =>
      simp only [applyOp] at h
      split at h
      · simp only [Except.ok.injEq] at h; subst h; rfl
      · exact absurd h (by simp)
  | renameTable a b =>
      simp only [applyOp] at h
      split at h
      · split at h
        · exact absurd h (by simp)
        · simp only [Except.ok.injEq] at h; subst h; rfl
      · exact absurd h (by simp)
  | insertSelect dst cols src =>
      simp only [applyOp] at h
      split at h
      · exact absurd h (by simp)
      · split at h
        · simp only [Except.ok.injEq] at h; subst h; rfl
        · exact absurd h (by simp)

/-- The statement kind tested by the drop policy. -/
theorem getObjectType_table_iff (s : Stmt) :
    getObjectType s = ObjType.table ↔ isTableStmt s = true := by
  cases s <;> simp [getObjectType, isTableStmt]

/-! ### C5 theorem -/

/-- A successful execOp appends exactly its operation to the trace and
    leaves the bookkeeping fields unchanged. -/
theorem execOp_ok_fields {c : LoopCtx} {op : Op} {c' : LoopCtx}
    (h : execOp c op = .ok c') :
    c'.trace = c.trace ++ [op] ∧ c'.rebuilt = c.rebuilt ∧
    c'.processed = c.processed ∧ c'.disallowed = c.disallowed := by
  unfold execOp at h
  cases ha : applyOp c.st op with
  | ok st' =>
      rw [ha] at h
      simp only [Except.ok.injEq] at h
      subst h
      exact ⟨rfl, rfl, rfl, rfl⟩
  | error e => rw [ha] at h; simp at h

/-- A successful execOp of a non-pragma operation preserves the FK flag. -/
theorem execOp_ok_fk {c : LoopCtx} {op : Op} {c' : LoopCtx}
    (hop : op.isFkPragma = false) (h : execOp c op = .ok c') :
    c'.st.fkEnabled = c.st.fkEnabled := by
  unfold execOp at h
  cases ha : applyOp c.st op with
  | ok st' =>
      rw [ha] at h
      simp only [Except.ok.injEq] at h
      subst h
      exact applyOp_fk hop ha
  | error e => rw [ha] at h; simp at h

/-- A successful tolerant drop records the drop operation, leaves the
    bookkeeping fields unchanged and preserves the FK flag. -/
theorem execDropTolerant_ok_fields {c : LoopCtx} {t : ObjType} {n : String}
    {c' : LoopCtx} (h : execDropTolerant c t n = .ok c') :
    c'.trace = c.trace ++ [Op.dropObj t n] ∧ c'.rebuilt = c.rebuilt ∧
    c'.processed = c.processed ∧ c'.disallowed = c.disallowed ∧
    c'.st.fkEnabled = c.st.fkEnabled := by
  unfold execDropTolerant at h
  cases ha : applyOp c.st (.dropObj t n) with
  | ok st' =>
      rw [ha] at h
      simp only [Except.ok.injEq] at h
      subst h
      exact ⟨rfl, rfl, rfl, rfl, applyOp_fk (by simp [Op.isFkPragma]) ha⟩
  | error e =>
      rw [ha] at h
      cases e <;> simp only [Except.ok.injEq] at h <;> first
        | (subst h; exact ⟨rfl, rfl, rfl, rfl, rfl⟩)
        | exact absurd h (by simp)

/-- doReorder on success appends exactly the rename, create, copy and drop
    operations in order, and records the table as rebuilt. -/
theorem doReorder_spec (c : LoopCtx) (t : TableStmt) (c' : LoopCtx)
    (h : doReorder c t = .ok c') :
    c'.trace = c.trace ++
      [Op.renameTable t.name (t.name ++ "_temp_reorder_sqlt"),
       Op.exec (Stmt.table t),
       Op.insertSelect t.name (t.columns.map fun cd => cd.name)
         (t.name ++ "_temp_reorder_sqlt"),
       Op.dropObj ObjType.table (t.name ++ "_temp_reorder_sqlt")] ∧
    c'.rebuilt = insertName c.rebuilt (toLowerS t.name) ∧
    c'.processed = c.processed ∧ c'.disallowed = c.disallowed ∧
    c'.st.fkEnabled = c.st.fkEnabled := by
  simp only [doReorder] at h
  split at h
  · exact absurd h (by simp)
  next c1 h1 =>
    split at h
    · exact absurd h (by simp)
    next c2 h2 =>
      split at h
      · exact absurd h (by simp)
      next c3 h3 =>
        split at h
        · exact absurd h (by simp)
        next c4 h4 =>
          simp only [Except.ok.injEq] at h
          subst h
          obtain ⟨t1, r1, p1, d1⟩ := execOp_ok_fields h1
          obtain ⟨t2, r2, p2, d2⟩ := execOp_ok_fields h2
          obtain ⟨t3, r3, p3, d3⟩ := execOp_ok_fields h3
          obtain ⟨t4, r4, p4, d4⟩ := execOp_ok_fields h4
          have f1 := execOp_ok_fk (by simp [Op.isFkPragma]) h1
          have f2 := execOp_ok_fk (by simp [Op.isFkPragma]) h2
          have f3 := execOp_ok_fk (by simp [Op.isFkPragma]) h3
          have f4 := execOp_ok_fk (by simp [Op.isFkPragma]) h4
          refine ⟨?_, ?_, ?_, ?_, ?_⟩
          · show c4.trace = _
            rw [t4, t3, t2, t1]
            simp [List.append_assoc]
          · show insertName c4.rebuilt (toLowerS t.name) = _
            rw [r4, r3, r2, r1]
          · show c4.processed = c.processed
            rw [p4, p3, p2, p1]
          · show c4.disallowed = c.disallowed
            rw [d4, d3, d2, d1]
          · show c4.st.fkEnabled = c.st.fkEnabled
            rw [f4, f3, f2, f1]

/-- With a reorder verdict, the main-loop iteration of a table reduces to
    doReorder after marking the name processed. -/
theorem processStmt_reorder_eq (atd : Bool) (dbo : List (String × Stmt))
    (c : LoopCtx) (t : TableStmt) (d : Stmt)
    (hd : lookupA dbo (toLowerS t.name) = some d)
    (hcmp : (compareStatements d (Stmt.table t)).1 = MatchType.reorderNeeded) :
    processStmt atd dbo c (Stmt.table t) =
      doReorder
        { c with processed := insertName c.processed (toLowerS t.name) } t := by
  obtain ⟨desc, hpair⟩ :
      ∃ desc, compareStatements d (Stmt.table t) =
        (MatchType.reorderNeeded, desc) :=
    ⟨(compareStatements d (Stmt.table t)).2, by rw [← hcmp]⟩
  simp only [processStmt, stmtName, isTableStmt, getTableNameForDependent,
    Bool.not_true, Bool.false_and, hd, hpair]
  rw [if_neg (by simp)]

/-- C5: for a table whose comparison verdict is reorder-only (and which is
    never force-recreated, tables not being dependents), a successful
    main-loop iteration performs exactly the sequence rename-to-temporary,
    CREATE of the desired statement, INSERT INTO name (cols) SELECT cols
    FROM temporary with cols the desired column names in declared order,
    DROP of the temporary — and records the table in the rebuilt set. -/
theorem reorder_rebuild_sequence (atd : Bool) (dbo : List (String × Stmt))
    (c : LoopCtx) (t : TableStmt) (d : Stmt) (c' : LoopCtx)
    (hd : lookupA dbo (toLowerS t.name) = some d)
    (hcmp : (compareStatements d (Stmt.table t)).1 = MatchType.reorderNeeded)
    (hok : processStmt atd dbo c (Stmt.table t) = .ok c') :
    c'.trace = c.trace ++
      [Op.renameTable t.name (t.name ++ "_temp_reorder_sqlt"),
       Op.exec (Stmt.table t),
       Op.insertSelect t.name (t.columns.map fun cd => cd.name)
         (t.name ++ "_temp_reorder_sqlt"),
       Op.dropObj ObjType.table (t.name ++ "_temp_reorder_sqlt")] ∧
    c'.rebuilt = insertName c.rebuilt (toLowerS t.name) := by
  rw [processStmt_reorder_eq atd dbo c t d hd hcmp] at hok
  have hsp := doReorder_spec _ t c' hok
  exact ⟨hsp.1, hsp.2.1⟩

/-- Witness for C5: the two-column reorder scenario evaluated. -/
theorem reorder_rebuild_sequence_witness :
    processStmt true dbObjectsReorder ctxReorder (Stmt.table tNew) =
      .ok reorderResultCtx ∧
    reorderResultCtx.trace = ctxReorder.trace ++
      [Op.renameTable "t" "t_temp_reorder_sqlt",
       Op.exec (Stmt.table tNew),
       Op.insertSelect "t" ["b", "a"] "t_temp_reorder_sqlt",
       Op.dropObj ObjType.table "t_temp_reorder_sqlt"] ∧
    reorderResultCtx.rebuilt = insertName ctxReorder.rebuilt "t" :=
  ⟨rfl,
    (reorder_rebuild_sequence true dbObjectsReorder ctxReorder tNew
      (Stmt.table tOld) reorderResultCtx rfl rfl rfl).1,
    (reorder_rebuild_sequence true dbObjectsReorder ctxReorder tNew
      (Stmt.table tOld) reorderResultCtx rfl rfl rfl).2⟩

/-! ### Main-loop invariants (C3 and C4) -/

/-- execOp failures are wrapped driver errors, never the policy error. -/
theorem execOp_error_kind {c : LoopCtx} {op : Op} {e : MErr}
    (h : execOp c op = .error e) : e.isDeletionNotAllowed = false := by
  unfold execOp at h
  cases ha : applyOp c.st op with
  | ok st' => rw [ha] at h; simp at h
  | error ee =>
      rw [ha] at h
      simp only [Except.error.injEq] at h
      subst h
      rfl

/-- Tolerant-drop failures are wrapped driver errors, never the policy
    error. -/
theorem execDropTolerant_error_kind {c : LoopCtx} {t : ObjType} {n : String}
    {e : MErr} (h : execDropTolerant c t n = .error e) :
    e.isDeletionNotAllowed = false := by
  unfold execDropTolerant at h
  cases ha : applyOp c.st (.dropObj t n) with
  | ok st' => rw [ha] at h; simp at h
  | error ee =>
      rw [ha] at h
      cases ee <;> simp only [Except.error.injEq] at h <;> first
        | (subst h; rfl)
        | exact absurd h (by simp)

/-- doReorder failures are wrapped driver errors, never the policy error. -/
theorem doReorder_error_kind {c : LoopCtx} {t : TableStmt} {e : MErr}
    (h : doReorder c t = .error e) : e.isDeletionNotAllowed = false := by
  simp only [doReorder] at h
  split at h
  next ee h1 =>
    simp only [Except.error.injEq] at h
    subst h
    exact execOp_error_kind h1
  next c1 h1 =>
    split at h
    next ee h2 =>
      simp only [Except.error.injEq] at h
      subst h
      exact execOp_error_kind h2
    next c2 h2 =>
      split at h
      next ee h3 =>
        simp only [Except.error.injEq] at h
        subst h
        exact execOp_error_kind h3
      next c3 h3 =>
        split at h
        next ee h4 =>
          simp only [Except.error.injEq] at h
          subst h
          exact execOp_error_kind h4
        next c4 h4 => exact absurd h (by simp)

/-- Main-loop iterations never return the policy error themselves (it is
    only assembled after the deletion loop). -/
theorem processStmt_error_kind {atd : Bool} {dbo : List (String × Stmt)}
    {c : LoopCtx} {s : Stmt} {e : MErr}
    (h : processStmt atd dbo c s = .error e) :
    e.isDeletionNotAllowed = false := by
  simp only [processStmt] at h
  split at h
  · -- new object: create
    split at h
    next ee h1 =>
      simp only [Except.error.injEq] at h
      subst h
      exact execOp_error_kind h1
    next c1 h1 =>
      split at h <;> exact absurd h (by simp)
  · -- existing object
    split at h
    · -- forced recreate
      split at h
      · exact absurd h (by simp)
      · split at h
        next ee h1 =>
          simp only [Except.error.injEq] at h
          subst h
          exact execDropTolerant_error_kind h1
        next c1 h1 => exact execOp_error_kind h
    · -- verdict dispatch
      split at h
      · exact absurd h (by simp)
      · -- reorder
        split at h
        · exact doReorder_error_kind h
        all_goals
          simp only [Except.error.injEq] at h
          subst h
          rfl
      · -- no match
        split at h
        · simp only [Except.error.injEq] at h
          subst h
          rfl
        · split at h
          · exact absurd h (by simp)
          · split at h
            next ee h1 =>
              simp only [Except.error.injEq] at h
              subst h
              exact execOp_error_kind h1
            next c1 h1 =>
              split at h
              next ee h2 =>
                simp only [Except.error.injEq] at h
                subst h
                exact execOp_error_kind h2
              next c2 h2 =>
                split at h
                · exact absurd h (by simp)
                · split at h <;> exact absurd h (by simp)

/-- A successful main-loop iteration only appends non-pragma operations,
    preserves the FK flag, and grows the disallowed list only with names of
    tables from the db-objects map — never when the policy allows table
    deletes. -/
theorem processStmt_ok_props {atd : Bool} {dbo : List (String × Stmt)}
    {c : LoopCtx} {s : Stmt} {c' : LoopCtx}
    (h : processStmt atd dbo c s = .ok c') :
    (∃ l, c'.trace = c.trace ++ l ∧ l.all (fun o => !o.isFkPragma) = true) ∧
    c'.st.fkEnabled = c.st.fkEnabled ∧
    (∃ dl, c'.disallowed = c.disallowed ++ dl ∧ (atd = true → dl = []) ∧
      ∀ x ∈ dl, ∃ p ∈ dbo, isTableStmt p.2 = true ∧ stmtName p.2 = x) := by
  simp only [processStmt] at h
  split at h
  · -- new object: create it
    split at h
    next ee h1 => exact absurd h (by simp)
    next c1 h1 =>
      obtain ⟨ht, hr, hp, hd⟩ := execOp_ok_fields h1
      have hf := execOp_ok_fk (by simp [Op.isFkPragma]) h1
      split at h <;>
        · simp only [Except.ok.injEq] at h
          subst h
          exact ⟨⟨[Op.exec s], by simp [ht], by simp [Op.isFkPragma]⟩, hf,
            ⟨[], by simp [hd], fun _ => rfl, by simp⟩⟩
  next dStmt hlook =>
    split at h
    · -- forced recreate
      split at h
      next hpol =>
        simp only [Except.ok.injEq] at h
        subst h
        refine ⟨⟨[], by simp, rfl⟩, rfl,
          ⟨[stmtName dStmt], by simp, ?_, ?_⟩⟩
        · intro hatd
          subst hatd
          simp at hpol
        · intro x hx
          simp only [List.mem_singleton] at hx
          subst hx
          refine ⟨(toLowerS (stmtName s), dStmt), lookupA_mem hlook, ?_, rfl⟩
          rw [Bool.and_eq_true] at hpol
          exact (getObjectType_table_iff dStmt).mp (by
            have := hpol.1
            simpa using this)
      · split at h
        next ee h1 => exact absurd h (by simp)
        next c1 h1 =>
          obtain ⟨ht1, hr1, hp1, hd1, hf1⟩ := execDropTolerant_ok_fields h1
          obtain ⟨ht2, hr2, hp2, hd2⟩ := execOp_ok_fields h
          have hf2 := execOp_ok_fk (by simp [Op.isFkPragma]) h
          refine ⟨⟨[Op.dropObj (getObjectType dStmt) (stmtName dStmt),
            Op.exec s], ?_, by simp [Op.isFkPragma]⟩, by rw [hf2, hf1],
            ⟨[], by simp [hd2, hd1], fun _ => rfl, by simp⟩⟩
          rw [ht2, ht1]
          simp
    · -- verdict dispatch
      split at h
      · -- exact match
        simp only [Except.ok.injEq] at h
        subst h
        exact ⟨⟨[], by simp, rfl⟩, rfl, ⟨[], by simp, fun _ => rfl, by simp⟩⟩
      · -- reorder
        split at h
        · obtain ⟨hT, hR, hP, hD, hF⟩ := doReorder_spec _ _ c' h
          refine ⟨⟨_, by simpa using hT, by simp [Op.isFkPragma]⟩,
            by simpa using hF, ⟨[], by simpa using hD, fun _ => rfl, by simp⟩⟩
        all_goals exact absurd h (by simp)
      · -- no match
        split at h
        · exact absurd h (by simp)
        · split at h
          next hpol =>
            simp only [Except.ok.injEq] at h
            subst h
            refine ⟨⟨[], by simp, rfl⟩, rfl,
              ⟨[stmtName dStmt], by simp, ?_, ?_⟩⟩
            · intro hatd
              subst hatd
              simp at hpol
            · intro x hx
              simp only [List.mem_singleton] at hx
              subst hx
              refine ⟨(toLowerS (stmtName s), dStmt), lookupA_mem hlook,
                ?_, rfl⟩
              rw [Bool.and_eq_true] at hpol
              exact hpol.1
          · split at h
            next ee h1 => exact absurd h (by simp)
            next c1 h1 =>
              split at h
              next ee h2 => exact absurd h (by simp)
              next c2 h2 =>
                obtain ⟨ht1, hr1, hp1, hd1⟩ := execOp_ok_fields h1
                obtain ⟨ht2, hr2, hp2, hd2⟩ := execOp_ok_fields h2
                have hf1 := execOp_ok_fk (by simp [Op.isFkPragma]) h1
                have hf2 := execOp_ok_fk (by simp [Op.isFkPragma]) h2
                have htr : c2.trace = c.trace ++
                    [Op.dropObj (getObjectType dStmt) (stmtName dStmt),
                     Op.exec s] := by
                  rw [ht2, ht1]; simp
                have hfk : c2.st.fkEnabled = c.st.fkEnabled := by
                  rw [hf2, hf1]
                have hdis : c2.disallowed = c.disallowed := by
                  rw [hd2, hd1]
                split at h <;> first
                  | (simp only [Except.ok.injEq] at h; subst h;
                     exact ⟨⟨_, htr, by simp [Op.isFkPragma]⟩, hfk,
                       ⟨[], by simp [hdis], fun _ => rfl, by simp⟩⟩)
                  | (split at h <;>
                      · simp only [Except.ok.injEq] at h
                        subst h
                        exact ⟨⟨_, htr, by simp [Op.isFkPragma]⟩, hfk,
                          ⟨[], by simp [hdis], fun _ => rfl, by simp⟩⟩)

/-- The main loop lifts the iteration invariants. -/
theorem runStmts_ok_props {atd : Bool} {dbo : List (String × Stmt)}
    {c : LoopCtx} {ss : List Stmt} {c' : LoopCtx}
    (h : runStmts atd dbo c ss = .ok c') :
    (∃ l, c'.trace = c.trace ++ l ∧ l.all (fun o => !o.isFkPragma) = true) ∧
    c'.st.fkEnabled = c.st.fkEnabled ∧
    (∃ dl, c'.disallowed = c.disallowed ++ dl ∧ (atd = true → dl = []) ∧
      ∀ x ∈ dl, ∃ p ∈ dbo, isTableStmt p.2 = true ∧ stmtName p.2 = x) := by
  induction ss generalizing c with
  | nil =>
      simp only [runStmts, Except.ok.injEq] at h
      subst h
      exact ⟨⟨[], by simp, rfl⟩, rfl, ⟨[], by simp, fun _ => rfl, by simp⟩⟩
  | cons s rest ih =>
      simp only [runStmts] at h
      cases h1 : processStmt atd dbo c s with
      | error e => rw [h1] at h; simp at h
      | ok c1 =>
          rw [h1] at h
          obtain ⟨⟨l1, hT1, hA1⟩, hF1, ⟨d1, hD1, hE1, hM1⟩⟩ :=
            processStmt_ok_props h1
          obtain ⟨⟨l2, hT2, hA2⟩, hF2, ⟨d2, hD2, hE2, hM2⟩⟩ := ih h
          refine ⟨⟨l1 ++ l2, by rw [hT2, hT1, List.append_assoc],
            by simp [List.all_append, hA1, hA2]⟩, by rw [hF2, hF1],
            ⟨d1 ++ d2, by rw [hD2, hD1, List.append_assoc], ?_, ?_⟩⟩
          · intro hatd
            rw [hE1 hatd, hE2 hatd]
            rfl
          · intro x hx
            rcases List.mem_append.mp hx with hx | hx
            exacts [hM1 x hx, hM2 x hx]

/-- The main loop never returns the policy error itself. -/
theorem runStmts_error_kind {atd : Bool} {dbo : List (String × Stmt)}
    {c : LoopCtx} {ss : List Stmt} {e : MErr}
    (h : runStmts atd dbo c ss = .error e) :
    e.isDeletionNotAllowed = false := by
  induction ss generalizing c with
  | nil => simp [runStmts] at h
  | cons s rest ih =>
      simp only [runStmts] at h
      cases h1 : processStmt atd dbo c s with
      | error e1 =>
          rw [h1] at h
          simp only [Except.error.injEq] at h
          subst h
          exact processStmt_error_kind h1
      | ok c1 =>
          rw [h1] at h
          exact ih h

/-- The deletion loop: non-pragma trace growth, FK and processed
    preservation, disallowed growth limited to tables of the iterated map,
    and an unconditional drop of every unprocessed non-table object. -/
theorem deletionLoop_ok_props {atd : Bool} {l : List (String × Stmt)}
    {c : LoopCtx} {c' : LoopCtx} (h : deletionLoop atd l c = .ok c') :
    (∃ tl, c'.trace = c.trace ++ tl ∧
      tl.all (fun o => !o.isFkPragma) = true) ∧
    c'.st.fkEnabled = c.st.fkEnabled ∧
    c'.processed = c.processed ∧
    (∃ dl, c'.disallowed = c.disallowed ++ dl ∧ (atd = true → dl = []) ∧
      ∀ x ∈ dl, ∃ p ∈ l, isTableStmt p.2 = true ∧ stmtName p.2 = x) ∧
    (∀ p ∈ l, memName c.processed p.1 = false → isTableStmt p.2 = false →
      Op.dropObj (getObjectType p.2) (stmtName p.2) ∈ c'.trace) := by
  induction l generalizing c with
  | nil =>
      simp only [deletionLoop, Except.ok.injEq] at h
      subst h
      exact ⟨⟨[], by simp, rfl⟩, rfl, rfl,
        ⟨[], by simp, fun _ => rfl, by simp⟩, by simp⟩
  | cons p rest ih =>
      obtain ⟨kL, dStmt⟩ := p
      simp only [deletionLoop] at h
      split at h
      next hmem =>
        obtain ⟨⟨tl, hT, hA⟩, hF, hP, ⟨dl, hD, hE, hM⟩, hDr⟩ := ih h
        refine ⟨⟨tl, hT, hA⟩, hF, hP,
          ⟨dl, hD, hE, fun x hx => ?_⟩, fun q hq hq1 hq2 => ?_⟩
        · obtain ⟨q, hq, hq1, hq2⟩ := hM x hx
          exact ⟨q, List.mem_cons_of_mem _ hq, hq1, hq2⟩
        · rcases List.mem_cons.mp hq with hq | hq
          · subst hq
            simp only at hq1
            rw [hq1] at hmem
            simp at hmem
          · exact hDr q hq hq1 hq2
      next hmem =>
        split at h
        next hpol =>
          obtain ⟨⟨tl, hT, hA⟩, hF, hP, ⟨dl, hD, hE, hM⟩, hDr⟩ := ih h
          rw [Bool.and_eq_true] at hpol
          refine ⟨⟨tl, by simpa using hT, hA⟩, hF, hP,
            ⟨stmtName dStmt :: dl, ?_, ?_, ?_⟩, fun q hq hq1 hq2 => ?_⟩
          · rw [hD]; simp
          · intro hatd
            subst hatd
            simp at hpol
          · intro x hx
            rcases List.mem_cons.mp hx with hx | hx
            · subst hx
              exact ⟨(kL, dStmt), List.mem_cons_self _ _, hpol.1, rfl⟩
            · obtain ⟨q, hq, hq1, hq2⟩ := hM x hx
              exact ⟨q, List.mem_cons_of_mem _ hq, hq1, hq2⟩
          · rcases List.mem_cons.mp hq with hq | hq
            · subst hq
              simp only at hq2
              rw [hq2] at hpol
              simp at hpol
            · exact hDr q hq hq1 hq2
        next hpol =>
          split at h
          next ee h1 => exact absurd h (by simp)
          next c1 h1 =>
            obtain ⟨ht1, hr1, hp1, hd1, hf1⟩ := execDropTolerant_ok_fields h1
            obtain ⟨⟨tl, hT, hA⟩, hF, hP, ⟨dl, hD, hE, hM⟩, hDr⟩ := ih h
            refine ⟨⟨Op.dropObj (getObjectType dStmt) (stmtName dStmt) :: tl,
              ?_, by simpa [Op.isFkPragma] using hA⟩,
              by rw [hF, hf1], by rw [hP, hp1],
              ⟨dl, by rw [hD, hd1], hE, fun x hx => ?_⟩,
              fun q hq hq1 hq2 => ?_⟩
            · rw [hT, ht1]
              simp
            · obtain ⟨q, hq, hq1, hq2⟩ := hM x hx
              exact ⟨q, List.mem_cons_of_mem _ hq, hq1, hq2⟩
            · rcases List.mem_cons.mp hq with hq | hq
              · subst hq
                rw [hT, ht1]
                simp
              · refine hDr q hq ?_ hq2
                rw [hp1]
                exact hq1

/-- The deletion loop never returns the policy error itself. -/
theorem deletionLoop_error_kind {atd : Bool} {l : List (String × Stmt)}
    {c : LoopCtx} {e : MErr} (h : deletionLoop atd l c = .error e) :
    e.isDeletionNotAllowed = false := by
  induction l generalizing c with
  | nil => simp [deletionLoop] at h
  | cons p rest ih =>
      obtain ⟨kL, dStmt⟩ := p
      simp only [deletionLoop] at h
      split at h
      · exact ih h
      · split at h
        · exact ih h
        · split at h
          next ee h1 =>
            simp only [Except.error.injEq] at h
            subst h
            exact execDropTolerant_error_kind h1
          next c1 h1 => exact ih h

/-- Membership through the Go-map write. -/
theorem insertOver_mem {α : Type} {l : List (String × α)} {k : String}
    {v : α} {p : String × α} (h : p ∈ insertOver l k v) :
    p ∈ l ∨ p = (k, v) := by
  induction l with
  | nil => simpa [insertOver] using h
  | cons q rest ih =>
      obtain ⟨k', w⟩ := q
      unfold insertOver at h
      split at h
      · rcases List.mem_cons.mp h with h | h
        · right
          rw [h]
          simp_all
        · left
          exact List.mem_cons_of_mem _ h
      · rcases List.mem_cons.mp h with h | h
        · left
          rw [h]
          exact List.mem_cons_self _ _
        · rcases ih h with h | h
          · exact Or.inl (List.mem_cons_of_mem _ h)
          · exact Or.inr h

/-- Folded form of the dbObjects provenance argument. -/
theorem foldl_dbObjects_mem {p : String × Stmt} :
    ∀ (m : List DBEntry) (acc : List (String × Stmt)),
      p ∈ m.foldl (fun acc e =>
        if skipInternal e.name then acc
        else insertOver acc (toLowerS e.name) e.stmt) acc →
      p ∈ acc ∨ ∃ e ∈ m, e.stmt = p.2
  | [], _acc, h => Or.inl h
  | e :: rest, acc, h => by
      rw [List.foldl_cons] at h
      rcases foldl_dbObjects_mem rest _ h with h1 | h1
      · by_cases hskip : skipInternal e.name
        · rw [if_pos hskip] at h1
          exact Or.inl h1
        · rw [if_neg hskip] at h1
          rcases insertOver_mem h1 with h2 | h2
          · exact Or.inl h2
          · exact Or.inr ⟨e, List.mem_cons_self _ _, by rw [h2]⟩
      · obtain ⟨e1, he1, he2⟩ := h1
        exact Or.inr ⟨e1, List.mem_cons_of_mem _ he1, he2⟩

/-- Every value in the dbObjects map is the statement of a catalog row. -/
theorem buildDbObjects_mem {m : List DBEntry} {p : String × Stmt}
    (h : p ∈ buildDbObjects m) : ∃ e ∈ m, e.stmt = p.2 := by
  rcases foldl_dbObjects_mem m [] h with h1 | h1
  · simp at h1
  · exact h1

/-- A successful transaction body has a pragma-free trace, preserves the
    FK flag and ends with an empty disallowed list. -/
theorem autoMigrateBody_ok_props {db : DBState} {schema : List Stmt}
    {atd : Bool} {c : LoopCtx} (h : autoMigrateBody db schema atd = .ok c) :
    c.trace.all (fun o => !o.isFkPragma) = true ∧
    c.st.fkEnabled = db.fkEnabled ∧ c.disallowed = [] := by
  unfold autoMigrateBody at h
  split at h
  · simp at h
  · simp only [] at h
    cases h1 : runStmts atd (buildDbObjects db.master)
        ⟨db, [], [], [], []⟩ schema with
    | error e => rw [h1] at h; simp at h
    | ok c1 =>
        rw [h1] at h
        simp only [] at h
        cases h2 : deletionLoop atd (buildDbObjects db.master) c1 with
        | error e => rw [h2] at h; simp at h
        | ok c2 =>
            rw [h2] at h
            simp only [] at h
            split at h
            · simp at h
            next hdis =>
              simp only [Except.ok.injEq] at h
              subst h
              obtain ⟨⟨l1, hT1, hA1⟩, hF1, ⟨d1, hD1, _, _⟩⟩ :=
                runStmts_ok_props h1
              obtain ⟨⟨l2, hT2, hA2⟩, hF2, _, ⟨d2, hD2, _, _⟩, _⟩ :=
                deletionLoop_ok_props h2
              refine ⟨?_, by rw [hF2, hF1], by simpa using hdis⟩
              rw [hT2, hT1]
              simp [List.all_append, hA1, hA2]

/-- With table deletes allowed, the body cannot fail with the policy
    error. -/
theorem autoMigrateBody_error_kind_true {db : DBState} {schema : List Stmt}
    {e : MErr} (h : autoMigrateBody db schema true = .error e) :
    e.isDeletionNotAllowed = false := by
  unfold autoMigrateBody at h
  split at h
  · simp only [Except.error.injEq] at h
    subst h
    rfl
  · simp only [] at h
    cases h1 : runStmts true (buildDbObjects db.master)
        ⟨db, [], [], [], []⟩ schema with
    | error e1 =>
        rw [h1] at h
        simp only [Except.error.injEq] at h
        subst h
        exact runStmts_error_kind h1
    | ok c1 =>
        rw [h1] at h
        simp only [] at h
        cases h2 : deletionLoop true (buildDbObjects db.master) c1 with
        | error e2 =>
            rw [h2] at h
            simp only [Except.error.injEq] at h
            subst h
            exact deletionLoop_error_kind h2
        | ok c2 =>
            rw [h2] at h
            simp only [] at h
            split at h
            next hdis =>
              obtain ⟨_, _, ⟨d1, hD1, hE1, _⟩⟩ := runStmts_ok_props h1
              obtain ⟨_, _, _, ⟨d2, hD2, hE2, _⟩, _⟩ :=
                deletionLoop_ok_props h2
              rw [hD2, hD1, hE1 rfl, hE2 rfl] at hdis
              simp at hdis
            · simp at h

/-- When the transaction body fails with the policy error, the listed
    tables are a nonempty set of tables of the catalog. -/
theorem autoMigrateBody_deletion_error {db : DBState} {schema : List Stmt}
    {atd : Bool} {ts : List String}
    (h : autoMigrateBody db schema atd = .error (.deletionNotAllowed ts)) :
    ts ≠ [] ∧ ∀ x ∈ ts, ∃ e ∈ db.master, isTableStmt e.stmt = true ∧
      stmtName e.stmt = x := by
  unfold autoMigrateBody at h
  split at h
  · simp at h
  · simp only [] at h
    cases h1 : runStmts atd (buildDbObjects db.master)
        ⟨db, [], [], [], []⟩ schema with
    | error e1 =>
        rw [h1] at h
        simp only [Except.error.injEq] at h
        have hk := runStmts_error_kind h1
        rw [h] at hk
        simp [MErr.isDeletionNotAllowed] at hk
    | ok c1 =>
        rw [h1] at h
        simp only [] at h
        cases h2 : deletionLoop atd (buildDbObjects db.master) c1 with
        | error e2 =>
            rw [h2] at h
            simp only [Except.error.injEq] at h
            have hk := deletionLoop_error_kind h2
            rw [h] at hk
            simp [MErr.isDeletionNotAllowed] at hk
        | ok c2 =>
            rw [h2] at h
            simp only [] at h
            split at h
            next hdis =>
              simp only [Except.error.injEq,
                MErr.deletionNotAllowed.injEq] at h
              obtain ⟨_, _, ⟨d1, hD1, _, hM1⟩⟩ := runStmts_ok_props h1
              obtain ⟨_, _, _, ⟨d2, hD2, _, hM2⟩, _⟩ :=
                deletionLoop_ok_props h2
              constructor
              · rw [← h]
                exact hdis
              · intro x hx
                rw [← h, hD2, hD1] at hx
                simp only [List.nil_append, List.mem_append] at hx
                rcases hx with hx | hx
                · obtain ⟨p, hp, hp1, hp2⟩ := hM1 x hx
                  obtain ⟨e, he, he2⟩ := buildDbObjects_mem hp
                  exact ⟨e, he, by rw [he2]; exact hp1,
                    by rw [he2]; exact hp2⟩
                · obtain ⟨p, hp, hp1, hp2⟩ := hM2 x hx
                  obtain ⟨e, he, he2⟩ := buildDbObjects_mem hp
                  exact ⟨e, he, by rw [he2]; exact hp1,
                    by rw [he2]; exact hp2⟩
            · simp at h

/-- The per-iteration behaviour of the main loop does not depend on the
    deletion policy when the processed statement is a table, or when the
    same-named database object (if any) is not a table. -/
theorem processStmt_policy_independent (atd atd' : Bool)
    (dbo : List (String × Stmt)) (c : LoopCtx) (s : Stmt)
    (hs : isTableStmt s = true ∨
      ∀ d, lookupA dbo (toLowerS (stmtName s)) = some d →
        isTableStmt d = false) :
    processStmt atd dbo c s = processStmt atd' dbo c s := by
  unfold processStmt
  cases hlook : lookupA dbo (toLowerS (stmtName s)) with
  | none => simp only [hlook]
  | some d =>
      simp only [hlook]
      by_cases hd : isTableStmt d = true
      · rcases hs with hs | hs
        · simp [hs, hd]
        · exact absurd hd (by simp [hs d hlook])
      · have hd' : isTableStmt d = false := by simpa using hd
        have hdt : decide (getObjectType d = ObjType.table) = false := by
          simp [getObjectType_table_iff, hd']
        simp only [hd', hdt, Bool.false_and, Bool.and_false]

/-! ### C3 theorem -/

/-- C3 amended: AutoMigrate itself never touches FK enforcement — its
    operation trace contains no FK pragma and the flag is unchanged on
    every path (success and rollback).  The FK off/on discipline is
    implemented by MigrateFunc: starting from FK enabled, it issues the OFF
    pragma, runs the body, and attempts the ON pragma on both the error and
    the success exit; when the restore attempt itself fails, FK stays
    disabled and a loud restore-failure error is surfaced. -/
theorem fk_pragma_discipline :
    (∀ (db : DBState) (schema : List Stmt) (atd : Bool),
      (autoMigrateTrace db schema atd).all (fun op => !op.isFkPragma) = true ∧
      (autoMigrate db schema atd).1.fkEnabled = db.fkEnabled) ∧
    (∀ (offOk : Bool) (body : Option String)
      (onOkAfterErr onOkAfterOk : Bool),
      ((migrateFuncRun true offOk body onOkAfterErr onOkAfterOk).fk = true ∨
        ∃ e, (migrateFuncRun true offOk body onOkAfterErr onOkAfterOk).err =
          some e ∧ e.isRestoreFailure = true) ∧
      (offOk = true →
        (migrateFuncRun true offOk body onOkAfterErr onOkAfterOk).trace =
          [Op.pragmaFkOff, Op.pragmaFkOn])) := by
  constructor
  · intro db schema atd
    unfold autoMigrateTrace autoMigrate txc
    cases hb : autoMigrateBody db schema atd with
    | error e => exact ⟨rfl, rfl⟩
    | ok c =>
        obtain ⟨hA, hF, _⟩ := autoMigrateBody_ok_props hb
        exact ⟨hA, hF⟩
  · intro offOk body e1 e2
    cases offOk <;> cases body <;> cases e1 <;> cases e2 <;>
      simp [migrateFuncRun, MfErr.isRestoreFailure]

/-- Witness for C3: the amended theorem applied to a concrete AutoMigrate
    run and a concrete MigrateFunc run. -/
theorem fk_pragma_discipline_witness :
    (autoMigrateTrace dbEmpty schemaOne true).all
      (fun op => !op.isFkPragma) = true ∧
    (migrateFuncRun true true none true true).trace =
      [Op.pragmaFkOff, Op.pragmaFkOn] :=
  ⟨(fk_pragma_discipline.1 dbEmpty schemaOne true).1,
   (fk_pragma_discipline.2 true none true true).2 rfl⟩

/-! ### C4 theorem -/

/-- C4 amended: ErrTableDeletionNotAllowed is returned only when
    allowTableDeletes is false (never when true), and then lists a nonempty
    set of tables present in the database; an earlier schema conflict or
    execution error pre-empts it.  Table iterations of the main loop are
    independent of the policy (so reorder rebuilds proceed under
    allowTableDeletes=false), as are iterations whose matching database
    object is not a table; and the deletion loop drops every unprocessed
    non-table object regardless of the policy. -/
theorem deletion_policy_characterization :
    (∀ (db : DBState) (schema : List Stmt) (ts : List String),
      (autoMigrate db schema true).2 ≠ some (MErr.deletionNotAllowed ts)) ∧
    (∀ (db : DBState) (schema : List Stmt) (ts : List String),
      (autoMigrate db schema false).2 = some (MErr.deletionNotAllowed ts) →
      ts ≠ [] ∧ ∀ x ∈ ts, ∃ e ∈ db.master, isTableStmt e.stmt = true ∧
        stmtName e.stmt = x) ∧
    (∀ (atd atd' : Bool) (dbo : List (String × Stmt)) (c : LoopCtx)
      (s : Stmt),
      (isTableStmt s = true ∨
        ∀ d, lookupA dbo (toLowerS (stmtName s)) = some d →
          isTableStmt d = false) →
      processStmt atd dbo c s = processStmt atd' dbo c s) ∧
    (∀ (atd : Bool) (l : List (String × Stmt)) (c c' : LoopCtx),
      deletionLoop atd l c = .ok c' →
      ∀ p ∈ l, memName c.processed p.1 = false → isTableStmt p.2 = false →
        Op.dropObj (getObjectType p.2) (stmtName p.2) ∈ c'.trace) := by
  refine ⟨?_, ?_, processStmt_policy_independent, ?_⟩
  · intro db schema ts
    unfold autoMigrate txc
    cases hb : autoMigrateBody db schema true with
    | ok c => simp
    | error e =>
        simp only [Option.some.injEq, ne_eq]
        intro hco
        have hk := autoMigrateBody_error_kind_true hb
        rw [hco] at hk
        simp [MErr.isDeletionNotAllowed] at hk
  · intro db schema ts h
    unfold autoMigrate txc at h
    cases hb : autoMigrateBody db schema false with
    | ok c => rw [hb] at h; simp at h
    | error e =>
        rw [hb] at h
        simp only [Option.some.injEq] at h
        rw [h] at hb
        exact autoMigrateBody_deletion_error hb
  · intro atd l c c' h
    exact (deletionLoop_ok_props h).2.2.2.2

/-- Witness for C4: a database with one extraneous table and an empty
    target under allowTableDeletes=false yields the policy error listing
    exactly that table. -/
theorem deletion_policy_characterization_witness :
    (autoMigrate dbGoneOnly [] false).2 =
      some (MErr.deletionNotAllowed ["gone"]) ∧
    ((["gone"] : List String) ≠ [] ∧ ∀ x ∈ ["gone"],
      ∃ e ∈ dbGoneOnly.master, isTableStmt e.stmt = true ∧
        stmtName e.stmt = x) :=
  ⟨rfl, deletion_policy_characterization.2.1 dbGoneOnly [] ["gone"] rfl⟩

/-! ### Verify characterization lemmas (C7) -/

/-- Writing a fresh key into a Go map model appends the pair. -/
theorem insertOver_not_mem {α : Type} (acc : List (String × α)) (k : String)
    (v : α) (h : k ∉ acc.map Prod.fst) :
    insertOver acc k v = acc ++ [(k, v)] := by
  induction acc with
  | nil => rfl
  | cons p rest ih =>
      obtain ⟨k', w⟩ := p
      simp only [List.map_cons, List.mem_cons] at h
      push_neg at h
      simp only [insertOver]
      rw [if_neg (fun hh => h.1 hh.symm), ih h.2]
      simp

/-- Folding map writes over entries with fresh, duplicate-free names builds
    the plain association list. -/
theorem foldl_insertOver_entries (l : List DBEntry)
    (acc : List (String × Stmt))
    (hfresh : ∀ e ∈ l, e.name ∉ acc.map Prod.fst)
    (hnd : (l.map (fun e => e.name)).Nodup) :
    l.foldl (fun m e => insertOver m e.name e.stmt) acc =
      acc ++ l.map (fun e => (e.name, e.stmt)) := by
  induction l generalizing acc with
  | nil => simp
  | cons e rest ih =>
      simp only [List.map_cons, List.nodup_cons] at hnd
      have hfresh' : ∀ e' ∈ rest,
          e'.name ∉ ((acc ++ [(e.name, e.stmt)]).map Prod.fst) := by
        intro e' he'
        simp only [List.map_append, List.mem_append, List.map_cons,
          List.map_nil, List.mem_singleton, not_or]
        refine ⟨hfresh e' (List.mem_cons_of_mem _ he'), ?_⟩
        intro hmem
        exact hnd.1 (by rw [← hmem]; exact List.mem_map_of_mem _ he')
      simp only [List.foldl_cons]
      rw [insertOver_not_mem acc e.name e.stmt
        (hfresh e (List.mem_cons_self e rest))]
      rw [ih (acc ++ [(e.name, e.stmt)]) hfresh' hnd.2]
      simp

/-- The db map built by Verify is the filtered catalog as an association
    list, when non-internal names are duplicate-free. -/
theorem verifyDbMap_eq (st : DBState)
    (hnd : ((st.master.filter (fun e => !likeSqliteName e.name)).map
      (fun e => e.name)).Nodup) :
    verifyDbMap st = (st.master.filter (fun e => !likeSqliteName e.name)).map
      (fun e => (e.name, e.stmt)) := by
  unfold verifyDbMap
  rw [foldl_insertOver_entries _ [] (by simp) hnd]
  simp

/-- Exact-name lookup in the association list of a duplicate-free entry
    list finds precisely the entry of that name. -/
theorem lookupA_entries_iff {l : List DBEntry}
    (hnd : (l.map (fun e => e.name)).Nodup) (n : String) (d : Stmt) :
    lookupA (l.map (fun e => (e.name, e.stmt))) n = some d ↔
      ∃ e ∈ l, e.name = n ∧ e.stmt = d := by
  induction l with
  | nil => simp [lookupA]
  | cons e rest ih =>
      simp only [List.map_cons, List.nodup_cons] at hnd
      simp only [List.map_cons, lookupA]
      by_cases he : e.name = n
      · rw [if_pos he]
        constructor
        · intro h
          exact ⟨e, List.mem_cons_self e rest, he, Option.some.inj h⟩
        · rintro ⟨e', he', hn, hs⟩
          rcases List.mem_cons.mp he' with rfl | hmem
          · rw [hs]
          · exact absurd
              (by rw [he, ← hn]; exact List.mem_map_of_mem _ hmem) hnd.1
      · rw [if_neg he, ih hnd.2]
        constructor
        · rintro ⟨e', he', hn, hs⟩
          exact ⟨e', List.mem_cons_of_mem _ he', hn, hs⟩
        · rintro ⟨e', he', hn, hs⟩
          rcases List.mem_cons.mp he' with rfl | hmem
          · exact absurd hn he
          · exact ⟨e', hmem, hn, hs⟩

/-- A successful schema pass verifies the names in stream order and means
    every stream object was found with an exact verdict. -/
theorem verifyLoop_ok_eq {dbMap : List (String × Stmt)} {v w : List String}
    {schema : List Stmt} (h : verifyLoop dbMap v schema = .ok w) :
    w = v ++ schema.map stmtName ∧
      ∀ s ∈ schema, ∃ d, lookupA dbMap (stmtName s) = some d ∧
        (compareStatements d s).1 = MatchType.exact := by
  induction schema generalizing v with
  | nil =>
      simp only [verifyLoop, Except.ok.injEq] at h
      subst h
      simp
  | cons s rest ih =>
      simp only [verifyLoop] at h
      cases hl : lookupA dbMap (stmtName s) with
      | none => rw [hl] at h; simp at h
      | some d =>
          rw [hl] at h
          simp only [] at h
          by_cases hc : (compareStatements d s).1 = MatchType.exact
          · rw [if_pos hc] at h
            obtain ⟨hw, hrest⟩ := ih h
            refine ⟨by rw [hw]; simp, ?_⟩
            intro s' hs'
            rcases List.mem_cons.mp hs' with rfl | hmem
            · exact ⟨d, hl, hc⟩
            · exact hrest s' hmem
          · rw [if_neg hc] at h
            simp at h

/-- Conversely, exact verdicts for every stream object make the schema
    pass succeed. -/
theorem verifyLoop_ok_of (dbMap : List (String × Stmt)) (v : List String)
    (schema : List Stmt)
    (h : ∀ s ∈ schema, ∃ d, lookupA dbMap (stmtName s) = some d ∧
      (compareStatements d s).1 = MatchType.exact) :
    verifyLoop dbMap v schema = .ok (v ++ schema.map stmtName) := by
  induction schema generalizing v with
  | nil => simp [verifyLoop]
  | cons s rest ih =>
      obtain ⟨d, hl, hc⟩ := h s (List.mem_cons_self s rest)
      simp only [verifyLoop, hl]
      rw [if_pos hc]
      rw [ih (v ++ [stmtName s])
        (fun s' hs' => h s' (List.mem_cons_of_mem _ hs'))]
      simp

/-- The extras pass accepts exactly when every db-map entry is verified or
    internal. -/
theorem verifyExtras_none_iff (dbMap : List (String × Stmt))
    (verified : List String) :
    verifyExtras dbMap verified = none ↔
      ∀ p ∈ dbMap, verified.contains p.1 = true ∨
        startsWithS p.1 "sqlite_" = true := by
  unfold verifyExtras
  cases hf : dbMap.find? (fun p =>
      !verified.contains p.1 && !startsWithS p.1 "sqlite_") with
  | some p =>
      simp only []
      constructor
      · intro h; simp at h
      · intro h
        exfalso
        have hp := List.find?_some hf
        have hmem := List.mem_of_find?_eq_some hf
        simp only [Bool.and_eq_true, Bool.not_eq_true'] at hp
        rcases h p hmem with hc | hc
        · rw [hp.1] at hc; exact absurd hc (by simp)
        · rw [hp.2] at hc; exact absurd hc (by simp)
  | none =>
      simp only []
      constructor
      · intro _ p hp
        have hnp := List.find?_eq_none.mp hf p hp
        revert hnp
        cases hcv : verified.contains p.1 <;>
          cases hsw : startsWithS p.1 "sqlite_" <;> simp
      · intro _
        simp

/-! ### C7 theorem -/

/-- C7 amended: with duplicate-free non-internal catalog names, Verify
    succeeds iff every object of the target stream has a same-named
    non-internal catalog entry whose statement compares structurally exact
    under compareStatements (not literal canonical-SQL equality), and every
    non-internal catalog entry is named by some stream object. -/
theorem verify_exact_characterization (st : DBState) (schema : List Stmt)
    (hnd : ((st.master.filter (fun e => !likeSqliteName e.name)).map
      (fun e => e.name)).Nodup) :
    verify st schema = none ↔
      ((∀ s ∈ schema, ∃ e ∈ st.master, likeSqliteName e.name = false ∧
          e.name = stmtName s ∧
          (compareStatements e.stmt s).1 = MatchType.exact) ∧
        (∀ e ∈ st.master, likeSqliteName e.name = false →
          startsWithS e.name "sqlite_" = false →
          ∃ s ∈ schema, stmtName s = e.name)) := by
  have hdb := verifyDbMap_eq st hnd
  constructor
  · intro h
    simp only [verify, hdb] at h
    cases hvl : verifyLoop
        ((st.master.filter (fun e => !likeSqliteName e.name)).map
          (fun e => (e.name, e.stmt))) [] schema with
    | error e => rw [hvl] at h; simp at h
    | ok w =>
        rw [hvl] at h
        simp only [] at h
        obtain ⟨hw, hpass⟩ := verifyLoop_ok_eq hvl
        constructor
        · intro s hs
          obtain ⟨d, hl, hc⟩ := hpass s hs
          obtain ⟨e, he, hn, hstmt⟩ := (lookupA_entries_iff hnd _ _).mp hl
          have hem := List.mem_filter.mp he
          refine ⟨e, hem.1, by simpa using hem.2, hn, ?_⟩
          rw [hstmt]; exact hc
        · intro e he hlike hsw
          have hmemL : e ∈ st.master.filter (fun e => !likeSqliteName e.name) :=
            List.mem_filter.mpr ⟨he, by simp [hlike]⟩
          have hmemP : (e.name, e.stmt) ∈
              (st.master.filter (fun e => !likeSqliteName e.name)).map
                (fun e => (e.name, e.stmt)) :=
            List.mem_map_of_mem _ hmemL
          rcases (verifyExtras_none_iff _ _).mp h (e.name, e.stmt) hmemP
            with hc | hc
          · have hmm : e.name ∈ schema.map stmtName := by
              rw [hw] at hc
              simpa using hc
            obtain ⟨s, hs, hsn⟩ := List.mem_map.mp hmm
            exact ⟨s, hs, hsn⟩
          · rw [hsw] at hc; exact absurd hc (by simp)
  · rintro ⟨h1, h2⟩
    have hpass : ∀ s ∈ schema, ∃ d,
        lookupA ((st.master.filter (fun e => !likeSqliteName e.name)).map
          (fun e => (e.name, e.stmt))) (stmtName s) = some d ∧
        (compareStatements d s).1 = MatchType.exact := by
      intro s hs
      obtain ⟨e, he, hlike, hn, hc⟩ := h1 s hs
      exact ⟨e.stmt, (lookupA_entries_iff hnd _ _).mpr
        ⟨e, List.mem_filter.mpr ⟨he, by simp [hlike]⟩, hn, rfl⟩, hc⟩
    simp only [verify, hdb]
    rw [verifyLoop_ok_of _ [] schema hpass]
    simp only [List.nil_append]
    rw [verifyExtras_none_iff]
    intro p hp
    obtain ⟨e, heL, hpe⟩ := List.mem_map.mp hp
    have hem := List.mem_filter.mp heL
    by_cases hsw : startsWithS e.name "sqlite_" = true
    · right; rw [← hpe]; exact hsw
    · left
      obtain ⟨s, hs, hsn⟩ :=
        h2 e hem.1 (by simpa using hem.2) (by simpa using hsw)
      have hmm : e.name ∈ schema.map stmtName := List.mem_map.mpr ⟨s, hs, hsn⟩
      rw [← hpe]
      simpa using hmm

/-- Witness for C7: the INT/INTEGER pair verifies (structurally exact)
    even though the canonical SQL texts differ. -/
theorem verify_exact_characterization_witness :
    ((dbIntType.master.filter (fun e => !likeSqliteName e.name)).map
      (fun e => e.name)).Nodup ∧
    verify dbIntType schemaIntegerType = none :=
  ⟨by decide,
   (verify_exact_characterization dbIntType schemaIntegerType (by decide)).mpr
     ⟨by decide, by decide⟩⟩

/-! ### C10 theorem -/

/-- Every chunk produced by the splitter is a semicolon-free body followed
    by the terminating semicolon. -/
theorem chunksOf_fst_wf (l : List Char) :
    ∀ ch ∈ (chunksOf l).1, ∃ a, (∀ c ∈ a, c ≠ ';') ∧ ch = a ++ [';'] := by
  induction l with
  | nil => intro ch hch; simp [chunksOf] at hch
  | cons c cs ih =>
      intro ch hch
      by_cases hc : c = ';'
      · subst hc
        have hch' : ch = [';'] ∨ ch ∈ (chunksOf cs).1 := by
          simpa [chunksOf] using hch
        rcases hch' with h1 | h1
        · exact ⟨[], by simp, by simp [h1]⟩
        · exact ih ch h1
      · simp only [chunksOf, hc, ite_false] at hch
        cases hcs : chunksOf cs with
        | mk fst snd =>
            cases fst with
            | nil => rw [hcs] at hch; simp at hch
            | cons ch0 rest =>
                rw [hcs] at hch
                simp only [List.mem_cons] at hch
                rcases hch with hch | hch
                · obtain ⟨a0, ha0, he⟩ :=
                    ih ch0 (by rw [hcs]; exact List.mem_cons_self _ _)
                  refine ⟨c :: a0, ?_, ?_⟩
                  · intro x hx
                    rcases List.mem_cons.mp hx with hx | hx
                    · rw [hx]; exact hc
                    · exact ha0 x hx
                  · rw [hch, he]; rfl
                · exact ih ch (by rw [hcs]; exact List.mem_cons_of_mem _ hch)

/-- Splitting a semicolon-free body, its semicolon and a remainder. -/
theorem chunksOf_append_semi (a : List Char) (ha : ∀ c ∈ a, c ≠ ';')
    (r : List Char) :
    chunksOf (a ++ ';' :: r) =
      ((a ++ [';']) :: (chunksOf r).1, (chunksOf r).2) := by
  induction a with
  | nil => simp [chunksOf]
  | cons c a' ih =>
      have hc : c ≠ ';' := ha c (List.mem_cons_self _ _)
      have ih' := ih (fun x hx => ha x (List.mem_cons_of_mem _ hx))
      show chunksOf (c :: (a' ++ ';' :: r)) = _
      simp only [chunksOf, hc, ite_false]
      rw [ih']
      rfl

/-- Re-splitting the concatenation of well-formed chunks recovers them with
    an empty tail. -/
theorem chunksOf_flatten (chs : List (List Char))
    (h : ∀ ch ∈ chs, ∃ a, (∀ c ∈ a, c ≠ ';') ∧ ch = a ++ [';']) :
    chunksOf chs.flatten = (chs, []) := by
  induction chs with
  | nil => rfl
  | cons ch rest ih =>
      obtain ⟨a, ha, he⟩ := h ch (List.mem_cons_self _ _)
      have ih' := ih (fun x hx => h x (List.mem_cons_of_mem _ hx))
      rw [List.flatten_cons, he, List.append_assoc, List.singleton_append,
        chunksOf_append_semi a ha, ih', ← he]

/-- C10: ExecTx silently discards an unterminated trailing statement.  If
    the input has non-empty text after its final semicolon, running ExecTx
    on the input equals running it on the input truncated at that final
    semicolon — the tail is never executed and contributes no error — and
    the truncated input has no tail. -/
theorem execTx_discards_unterminated_tail (execOk : String → Bool)
    (input : String)
    (htail : (chunksOf input.toList).2 ≠ []) :
    execTx execOk input = execTx execOk (truncAtSemi input) ∧
    (chunksOf (truncAtSemi input).toList).2 = [] := by
  have hfl : chunksOf (truncAtSemi input).toList =
      ((chunksOf input.toList).1, []) :=
    chunksOf_flatten (chunksOf input.toList).1 (chunksOf_fst_wf input.toList)
  constructor
  · show runChunks execOk (chunksOf input.toList).1 [] [] = _
    unfold execTx
    rw [hfl]
  · rw [hfl]

/-- Witness for C10: a concrete input with an unterminated trailing CREATE
    TABLE; the tail is dropped and ExecTx returns no error. -/
theorem execTx_discards_unterminated_tail_witness :
    (chunksOf ("CREATE TABLE a(x); CREATE TABLE b(y").toList).2 ≠ [] ∧
    execTx (fun _ => true) "CREATE TABLE a(x); CREATE TABLE b(y" =
      execTx (fun _ => true)
        (truncAtSemi "CREATE TABLE a(x); CREATE TABLE b(y") ∧
    execTx (fun _ => true) "CREATE TABLE a(x); CREATE TABLE b(y" =
      (none, ["CREATE TABLE a(x);"]) :=
  ⟨by decide,
    (execTx_discards_unterminated_tail (fun _ => true)
      "CREATE TABLE a(x); CREATE TABLE b(y" (by decide)).1,
    rfl⟩

end Sqlt
